import Mathlib

set_option exponentiation.threshold 4096

/-!
Secure ATM: session and transaction authorisation core

A shallow embedding of `enhanced_sec_version.c`.

Modelling conventions

* The two globals `accounts` / `current_session` and the index `current_account`
  are gathered in one `State` record that every operation receives and returns.
* A C `double` is an IEEE-754 binary64 value (`Double`): a NaN, an infinity or a
  finite number kept as sign, significand and exponent in units of `2^-1074`; `+`,
  `-` and `>` round and compare as the hardware does.
* A C `int` counter is an `Int` that wraps to `INT_MIN` when it is incremented at
  `INT_MAX`: the C standard leaves that overflow undefined, and the model takes the
  result of the two's-complement increment that the usual compilers produce.
* `time_t` is an `Int`; the value `time(NULL)` delivers is the argument `now`.
* The bytes `RAND_bytes` delivers are the argument `rnd` (`none` when it fails).
* A `char` buffer is the C string it holds (`List Char`).  The buffers written by
  `strncpy(dst, src, sizeof dst - 1)` live in zero-initialised globals whose last
  byte is never written, so the string they hold afterwards is `src` cut to
  `sizeof dst - 1` characters.
* Account indices have the type `Fin` of the array bound: the C code indexes
  without a bound check and is defined only for in-range indices.  The index
  `transaction_count % MAX_TRANSACTION_HISTORY` of the history is computed as C
  does, truncating toward zero: when the index is negative it names no slot
  (`none`) and the record, written outside the array, is left out of the state.
* `sanitizeInput` works in place, so its argument is the whole buffer, terminator
  included; `clearSensitiveData` works on raw memory, a list of bytes.
-/

namespace SecureATM

/-! ## The type `double`

Arithmetic is that of IEEE-754 binary64 with round to nearest, ties to even, as on
x86-64: every result is the exact result rounded once.  A NaN operand is passed on; the
NaN that `inf - inf` makes has its sign bit set. -/

/-- A C `double`, an IEEE-754 binary64 value.  The finite value `fin neg m e` is
`(-1)^neg * m * 2^e` in units of `2^-1074`, the spacing of the smallest doubles. -/
inductive Double where
  | nan (neg : Bool)
  | inf (neg : Bool)
  | fin (neg : Bool) (m : Nat) (e : Nat)
  deriving DecidableEq

namespace Double

/-- The signed integer with sign `neg` and magnitude `n`. -/
def signed (neg : Bool) (n : Nat) : Int :=
  if neg then -(n : Int) else (n : Int)

/-- The value of a finite double in units of `2^-1074`. -/
def toUnits : Double → Option Int
  | fin neg m e => some (signed neg (m * 2 ^ e))
  | _ => none

/-- The number of binary digits of `n`, found in at most `fuel` halvings. -/
def bitLengthAux : Nat → Nat → Nat
  | 0, _ => 0
  | fuel + 1, n => if n = 0 then 0 else bitLengthAux fuel (n / 2) + 1

/-- The number of binary digits of `n`. -/
def bitLength (n : Nat) : Nat :=
  bitLengthAux n n

/-- Round the magnitude `n` (in units of `2^-1074`) to the nearest double, ties to
even, with sign `neg`; `n` is not zero. -/
def roundUnits (neg : Bool) (n : Nat) : Double :=
  let len := bitLength n
  if len ≤ 53 then fin neg n 0
  else
    let s := len - 53
    let q := n / 2 ^ s
    let r := n % 2 ^ s
    let half := 2 ^ (s - 1)
    let m := if half < r ∨ (r = half ∧ q % 2 = 1) then q + 1 else q
    let m1 := if m = 2 ^ 53 then 2 ^ 52 else m
    let e1 := if m = 2 ^ 53 then s + 1 else s
    if 2045 < e1 then inf neg else fin neg m1 e1

/-- Round the exact value `z` (in units of `2^-1074`); an exact zero gets the sign
`zeroNeg`. -/
def ofUnits (zeroNeg : Bool) (z : Int) : Double :=
  if z = 0 then fin zeroNeg 0 0 else roundUnits (decide (z < 0)) z.natAbs

/-- The double nearest to the integer `z`. -/
def ofInt (z : Int) : Double :=
  ofUnits false (z * 2 ^ 1074)

/-- The operator `-x`. -/
def neg : Double → Double
  | nan s => nan (!s)
  | inf s => inf (!s)
  | fin s m e => fin (!s) m e

/-- The operator `a + b`. -/
def add : Double → Double → Double
  | nan s, _ => nan s
  | _, nan s => nan s
  | inf s1, inf s2 => if s1 = s2 then inf s1 else nan true
  | inf s, fin _ _ _ => inf s
  | fin _ _ _, inf s => inf s
  | fin s1 m1 e1, fin s2 m2 e2 =>
      ofUnits (s1 && s2) (signed s1 (m1 * 2 ^ e1) + signed s2 (m2 * 2 ^ e2))

/-- The operator `a - b`. -/
def sub : Double → Double → Double
  | nan s, _ => nan s
  | _, nan s => nan s
  | a, b => add a (neg b)

/-- The operator `a > b`. -/
def gt : Double → Double → Bool
  | nan _, _ => false
  | _, nan _ => false
  | inf s1, inf s2 => !s1 && s2
  | inf s, fin _ _ _ => !s
  | fin _ _ _, inf s => s
  | fin s1 m1 e1, fin s2 m2 e2 =>
      decide (signed s2 (m2 * 2 ^ e2) < signed s1 (m1 * 2 ^ e1))

/-- The operator `a <= b`. -/
def le : Double → Double → Bool
  | nan _, _ => false
  | _, nan _ => false
  | inf s1, inf s2 => s1 || !s2
  | inf s, fin _ _ _ => s
  | fin _ _ _, inf s => !s
  | fin s1 m1 e1, fin s2 m2 e2 =>
      decide (signed s1 (m1 * 2 ^ e1) ≤ signed s2 (m2 * 2 ^ e2))

end Double

instance : OfNat Double n := ⟨Double.ofInt n⟩
instance : Add Double := ⟨Double.add⟩
instance : Sub Double := ⟨Double.sub⟩
instance : Neg Double := ⟨Double.neg⟩

/-- The comparison `a < b` is C's `b > a`: false when either side is a NaN. -/
instance : LT Double := ⟨fun a b => Double.gt b a = true⟩

/-- The comparison `a <= b` is C's `a <= b`: false when either side is a NaN. -/
instance : LE Double := ⟨fun a b => Double.le a b = true⟩

instance (a b : Double) : Decidable (a < b) :=
  inferInstanceAs (Decidable (Double.gt b a = true))

instance (a b : Double) : Decidable (a ≤ b) :=
  inferInstanceAs (Decidable (Double.le a b = true))

/-- The double with the bit pattern `bits`. -/
def Double.ofBits (bits : Nat) : Double :=
  let s := decide (bits / 2 ^ 63 % 2 = 1)
  let ex := bits / 2 ^ 52 % 2 ^ 11
  let fr := bits % 2 ^ 52
  if ex = 2047 then (if fr = 0 then Double.inf s else Double.nan s)
  else if ex = 0 then Double.fin s fr 0
  else Double.fin s (2 ^ 52 + fr) (ex - 1)

/-- A NaN. -/
def Double.isNaN : Double → Bool
  | Double.nan _ => true
  | _ => false

/-- A finite number: neither a NaN nor an infinity. -/
def Double.isFinite : Double → Bool
  | Double.fin _ _ _ => true
  | _ => false

/-- The values of binary64: a finite one has a significand of at most 53 binary digits
and an exponent at most that of the largest double.  NaNs and infinities count. -/
def Double.isBinary64 : Double → Bool
  | Double.fin _ m e => decide (m < 2 ^ 53) && decide (e ≤ 2045)
  | _ => true

/-! ## Constants -/

def MAX_PIN_ATTEMPTS : Nat := 3
def PIN_LENGTH : Nat := 4
def SALT_LENGTH : Nat := 16
def HASH_LENGTH : Nat := 64
def SESSION_TIMEOUT_SECONDS : Int := 300
def MAX_DAILY_WITHDRAWAL : Double := 5000
def MAX_DAILY_TRANSFER : Double := 10000

abbrev MAX_ACCOUNTS : Nat := 3
def MAX_NAME_LENGTH : Nat := 50
def MAX_ACCOUNT_NUMBER_LENGTH : Nat := 20
def BUFFER_SIZE : Nat := 100
def MIN_BALANCE : Double := 500
def MAX_TRANSACTION_AMOUNT : Double := 50000
def MAX_TRANSACTIONS_PER_SESSION : Int := 5
abbrev MAX_TRANSACTION_HISTORY : Nat := 100

def INT_MAX : Int := 2147483647
def SUCCESS : Int := 0
def ERROR_INVALID_INPUT : Int := -1
def ERROR_INSUFFICIENT_FUNDS : Int := -2
def ERROR_ACCOUNT_LOCKED : Int := -3
def ERROR_SESSION_TIMEOUT : Int := -4
def ERROR_DAILY_LIMIT_EXCEEDED : Int := -5

/-! ## Data model -/

/-- The record `struct SecurePIN`: salt and digest bytes. -/
structure SecurePIN where
  salt : List Nat
  hash : List Nat

/-- The record `struct Session`. -/
structure Session where
  last_activity : Int
  is_active : Bool
  daily_withdrawal : Double
  daily_transfer : Double
  transaction_count : Int
  session_id : List Char

/-- The record `struct Transaction`, one slot of an account's history. -/
structure Transaction where
  timestamp : Int
  type : List Char
  amount : Double
  details : List Char
  transaction_id : List Char

/-- The record `struct Account`. -/
structure Account where
  name : List Char
  account_number : List Char
  balance : Double
  pin : SecurePIN
  is_locked : Bool
  lock_until : Int
  failed_attempts : Int
  transaction_history : Fin MAX_TRANSACTION_HISTORY → Transaction
  transaction_count : Int

/-- The global variables of the program. -/
structure State where
  accounts : Fin MAX_ACCOUNTS → Account
  current_session : Session
  current_account : Fin MAX_ACCOUNTS

/-- The outside world seen by one call: the clock and the random source. -/
structure Env where
  now : Int
  rnd : Option (Fin 16 → Fin 256)

/-! ## C library helpers -/

/-- One lower-case hexadecimal digit, as printed by `%x`. -/
def hexDigit (n : Nat) : Char :=
  if n < 10 then Char.ofNat (48 + n) else Char.ofNat (87 + n)

/-- The conversion `%02x` of one byte. -/
def hexByte (b : Nat) : List Char :=
  [hexDigit (b / 16 % 16), hexDigit (b % 16)]

/-- The copy `strncpy(dst, src, n)` into a buffer whose byte `n` is zero. -/
def strncpy (src : List Char) (n : Nat) : List Char :=
  src.take n

/-- Round half to even the quotient `x / d`. -/
def divRoundHalfEven (x d : Nat) : Nat :=
  let q := x / d
  let r := x % d
  if 2 * r < d then q
  else if d < 2 * r then q + 1
  else if q % 2 = 0 then q else q + 1

/-- The conversion `%.2f` of a double. -/
def formatFixed2 : Double → List Char
  | Double.nan neg => (if neg then ['-'] else []) ++ "nan".toList
  | Double.inf neg => (if neg then ['-'] else []) ++ "inf".toList
  | Double.fin neg m e =>
      let n := divRoundHalfEven (m * 2 ^ e * 100) (2 ^ 1074)
      (if neg then ['-'] else []) ++ Nat.toDigits 10 (n / 100) ++ ['.'] ++
        [Nat.digitChar (n % 100 / 10), Nat.digitChar (n % 10)]

/-- The value of a C `int` whose exact value would be `z`: an increment at `INT_MAX`
wraps around to `INT_MIN`. -/
def wrapInt (z : Int) : Int :=
  (z + 2147483648) % 4294967296 - 2147483648

/-- The call `snprintf(buf, size, ...)`: the formatted text cut to `size - 1`. -/
def snprintf (size : Nat) (text : List Char) : List Char :=
  text.take (size - 1)

/-! ## Operations -/

/-- The function `generateSecureSessionId`: the flag it returns and the buffer
afterwards (`old` is the buffer before the call). -/
def generateSecureSessionId (rnd : Option (Fin 16 → Fin 256)) (old : List Char) :
    Bool × List Char :=
  match rnd with
  | none => (false, old)
  | some random_bytes =>
      (true, (List.finRange 16).flatMap (fun i => hexByte (random_bytes i).val))

/-- The function `isSessionValid`. -/
def isSessionValid (s : State) (now : Int) : Bool :=
  if !s.current_session.is_active ||
      decide (now - s.current_session.last_activity > SESSION_TIMEOUT_SECONDS) ||
      decide (s.current_session.transaction_count ≥ MAX_TRANSACTIONS_PER_SESSION) then
    false
  else
    true

/-- The function `updateSessionActivity`. -/
def updateSessionActivity (s : State) (now : Int) : State :=
  { s with current_session := { s.current_session with last_activity := now } }

/-- The element `transaction_history[n % MAX_TRANSACTION_HISTORY]`: C's `%` truncates
towards zero, so a negative `n` that is no multiple of 100 gives a negative index, which
is no element of the array. -/
def historySlot (n : Int) : Option (Fin MAX_TRANSACTION_HISTORY) :=
  if h : 0 ≤ Int.tmod n 100 then
    some ⟨(Int.tmod n 100).toNat,
      (Int.toNat_lt h).mpr (Int.tmod_lt_of_pos n (by decide))⟩
  else
    none

/-- The function `logTransaction`.  With a negative index the record is written outside
`transaction_history`, to memory that the state here does not hold. -/
def logTransaction (s : State) (type : List Char) (amount : Double) (details : List Char)
    (env : Env) : State :=
  let acc := s.accounts s.current_account
  let history : Fin MAX_TRANSACTION_HISTORY → Transaction :=
    match historySlot acc.transaction_count with
    | some slot =>
        Function.update acc.transaction_history slot
          { timestamp := env.now
            type := strncpy type 19
            amount := amount
            details := strncpy details 99
            transaction_id := (generateSecureSessionId env.rnd
              (acc.transaction_history slot).transaction_id).2 }
    | none => acc.transaction_history
  let acc1 : Account :=
    { acc with
      transaction_history := history
      transaction_count := wrapInt (acc.transaction_count + 1) }
  { s with
    accounts := Function.update s.accounts s.current_account acc1
    current_session :=
      { s.current_session with
        transaction_count := wrapInt (s.current_session.transaction_count + 1) } }

/-- The function `performSecureWithdrawal`: return code and state afterwards. -/
def performSecureWithdrawal (s : State) (amount : Double) (env : Env) : Int × State :=
  if s.current_session.daily_withdrawal + amount > MAX_DAILY_WITHDRAWAL then
    (ERROR_DAILY_LIMIT_EXCEEDED, s)
  else if amount > (s.accounts s.current_account).balance - MIN_BALANCE then
    (ERROR_INSUFFICIENT_FUNDS, s)
  else
    let s1 : State :=
      { s with
        accounts := Function.update s.accounts s.current_account
          { s.accounts s.current_account with
            balance := (s.accounts s.current_account).balance - amount } }
    let s2 : State :=
      { s1 with
        current_session :=
          { s1.current_session with
            daily_withdrawal := s1.current_session.daily_withdrawal + amount } }
    let details := snprintf 100 ("Withdrawal of $".toList ++ formatFixed2 amount)
    (SUCCESS, logTransaction s2 "WITHDRAWAL".toList amount details env)

/-- The function `performSecureTransfer`: return code and state afterwards. -/
def performSecureTransfer (s : State) (target_account : Fin MAX_ACCOUNTS) (amount : Double)
    (env : Env) : Int × State :=
  if s.current_session.daily_transfer + amount > MAX_DAILY_TRANSFER then
    (ERROR_DAILY_LIMIT_EXCEEDED, s)
  else if amount > (s.accounts s.current_account).balance - MIN_BALANCE then
    (ERROR_INSUFFICIENT_FUNDS, s)
  else
    let s1 : State :=
      { s with
        accounts := Function.update s.accounts s.current_account
          { s.accounts s.current_account with
            balance := (s.accounts s.current_account).balance - amount } }
    let s2 : State :=
      { s1 with
        accounts := Function.update s1.accounts target_account
          { s1.accounts target_account with
            balance := (s1.accounts target_account).balance + amount } }
    let s3 : State :=
      { s2 with
        current_session :=
          { s2.current_session with
            daily_transfer := s2.current_session.daily_transfer + amount } }
    let details := snprintf 100
      ("Transfer of $".toList ++ formatFixed2 amount ++ " to account ".toList ++
        (s3.accounts target_account).account_number)
    (SUCCESS, logTransaction s3 "TRANSFER".toList amount details env)

/-- The terminator of a C string. -/
def NUL : Char := Char.ofNat 0

/-- The C string a buffer holds: its characters up to the first terminator. -/
def cString (mem : List Char) : List Char :=
  mem.takeWhile (fun c => c != NUL)

/-- The loop of `validateInputFormat`: `n` iterations from index `i`. -/
def pinDigitsLoop (input : List Char) : Nat → Nat → Bool
  | _, 0 => true
  | i, n + 1 =>
      if !(input.getD i NUL).isDigit then false
      else pinDigitsLoop input (i + 1) n

/-- The function `validateInputFormat`; `input` and `format` are C strings. -/
def validateInputFormat (input : List Char) (format : List Char) : Bool :=
  if format = "PIN".toList then
    if input.length ≠ PIN_LENGTH then false
    else pinDigitsLoop input 0 PIN_LENGTH
  else
    false

/-- The condition under which `sanitizeInput` keeps a character:
`isalnum(c) || c == ' ' || c == '.' || c == '-'`. -/
def keepChar (c : Char) : Bool :=
  c.isAlphanum || c == ' ' || c == '.' || c == '-'

/-- The loop of `sanitizeInput` on the buffer `mem`, with read index `src` and write
index `dst`, followed by the final `*dst = 0`.  Each iteration advances `src`, so
`fuel` bounds the iterations; a byte past the buffer reads as the terminator. -/
def sanitizeLoop : Nat → List Char → Nat → Nat → List Char
  | 0, mem, _, _ => mem
  | fuel + 1, mem, src, dst =>
      if mem.getD src NUL = NUL then
        mem.set dst NUL
      else if keepChar (mem.getD src NUL) then
        sanitizeLoop fuel (mem.set dst (mem.getD src NUL)) (src + 1) (dst + 1)
      else
        sanitizeLoop fuel mem (src + 1) dst

/-- The function `sanitizeInput`: the buffer afterwards. -/
def sanitizeInput (mem : List Char) : List Char :=
  sanitizeLoop (mem.length + 1) mem 0 0

/-- The function `clearSensitiveData` on the memory `mem` (a list of bytes), from
offset `p`: the loop `while (size--) *p++ = 0`. -/
def clearSensitiveData (mem : List Nat) : Nat → Nat → List Nat
  | _, 0 => mem
  | p, size + 1 => clearSensitiveData (mem.set p 0) (p + 1) size

/-! ## Call sequences -/

/-- One call of the two money-movement operations. -/
inductive Op where
  | withdraw (amount : Double)
  | transfer (target_account : Fin MAX_ACCOUNTS) (amount : Double)

/-- The amount passed to a call. -/
def Op.amount : Op → Double
  | Op.withdraw amount => amount
  | Op.transfer _ amount => amount

/-- Execute one call: its return code and the state afterwards. -/
def step (s : State) (c : Op × Env) : Int × State :=
  match c.1 with
  | Op.withdraw amount => performSecureWithdrawal s amount c.2
  | Op.transfer target_account amount => performSecureTransfer s target_account amount c.2

/-- Execute a sequence of calls: the return codes in order and the final state. -/
def runCalls (s : State) : List (Op × Env) → List Int × State
  | [] => ([], s)
  | c :: cs =>
      let r := step s c
      let rest := runCalls r.2 cs
      (r.1 :: rest.1, rest.2)

/-! ## Derived notions -/

/-- The balance of account `i` after the two balance assignments of a transfer,
the debit of the source first and the credit of the target second. -/
def balanceAfterTransfer (s : State) (t : Fin MAX_ACCOUNTS) (amount : Double)
    (i : Fin MAX_ACCOUNTS) : Double :=
  let debited : Double :=
    if i = s.current_account then (s.accounts i).balance - amount else (s.accounts i).balance
  if i = t then debited + amount else debited

/-- Every call of the sequence is made while `isSessionValid` holds at its time, the
check the loop of `main` makes before each operation. -/
def calledWhileValid (s : State) : List (Op × Env) → Bool
  | [] => true
  | c :: cs => isSessionValid s c.2.now && calledWhileValid (step s c).2 cs

/-- The state `s` with the three fields `isSessionValid` reads replaced. -/
def withSessionFields (s : State) (active : Bool) (last : Int) (count : Int) : State :=
  { s with
    current_session :=
      { s.current_session with
        is_active := active
        last_activity := last
        transaction_count := count } }

/-- The characters the specification lets through: alphanumeric, space, period or
hyphen. -/
def isPermittedChar (c : Char) : Bool :=
  (c.isAlpha || c.isDigit) || c == ' ' || c == '.' || c == '-'

/-- The sanitiser as the specification words it: the permitted characters of the input,
in their original order. -/
def sanitizeSpec (input : List Char) : List Char :=
  input.filter isPermittedChar

/-- The arguments and the outside world of one `logTransaction` call. -/
structure LogCall where
  type : List Char
  amount : Double
  details : List Char
  env : Env

/-- Execute a sequence of `logTransaction` calls. -/
def logAll (s : State) : List LogCall → State
  | [] => s
  | c :: cs => logAll (logTransaction s c.type c.amount c.details c.env) cs

/-- The slot `t` holds the record that the call `c` of `logTransaction` writes: the
time stamp, the type and details as `strncpy` leaves them, the amount, and the
transaction id made from the random bytes when the random source delivered some. -/
def holdsRecord (t : Transaction) (c : LogCall) : Prop :=
  t.timestamp = c.env.now ∧ t.type = strncpy c.type 19 ∧ t.amount = c.amount ∧
    t.details = strncpy c.details 99 ∧
    ∀ r, c.env.rnd = some r → t.transaction_id = (generateSecureSessionId (some r) []).2

/-- The slot `n % 100` of a count `n` that is not negative. -/
def slotOf (n : Nat) : Fin MAX_TRANSACTION_HISTORY :=
  ⟨n % 100, Nat.mod_lt n (by decide)⟩

/-- The history of the current account. -/
def currentHistory (s : State) : Fin MAX_TRANSACTION_HISTORY → Transaction :=
  (s.accounts s.current_account).transaction_history

/-- The `transaction_count` of the current account. -/
def currentCount (s : State) : Int :=
  (s.accounts s.current_account).transaction_count

/-- The state after the assignments of an accepted withdrawal, before it is logged. -/
def withdrawalApplied (s : State) (amount : Double) : State :=
  let s1 : State :=
    { s with
      accounts := Function.update s.accounts s.current_account
        { s.accounts s.current_account with
          balance := (s.accounts s.current_account).balance - amount } }
  { s1 with
    current_session :=
      { s1.current_session with
        daily_withdrawal := s1.current_session.daily_withdrawal + amount } }

/-- The state after the assignments of an accepted transfer, before it is logged. -/
def transferApplied (s : State) (target_account : Fin MAX_ACCOUNTS) (amount : Double) : State :=
  let s1 : State :=
    { s with
      accounts := Function.update s.accounts s.current_account
        { s.accounts s.current_account with
          balance := (s.accounts s.current_account).balance - amount } }
  let s2 : State :=
    { s1 with
      accounts := Function.update s1.accounts target_account
        { s1.accounts target_account with
          balance := (s1.accounts target_account).balance + amount } }
  { s2 with
    current_session :=
      { s2.current_session with
        daily_transfer := s2.current_session.daily_transfer + amount } }

/-- The text `snprintf` formats for a withdrawal. -/
def withdrawalText (amount : Double) : List Char :=
  "Withdrawal of $".toList ++ formatFixed2 amount

/-- The text `snprintf` formats for a transfer to the account numbered `number`. -/
def transferText (amount : Double) (number : List Char) : List Char :=
  "Transfer of $".toList ++ formatFixed2 amount ++ " to account ".toList ++ number

/-! ## The session record in memory

`clearSensitiveData` works on bytes, so the claims about wiping the session need the
bytes of `struct Session`.  The offsets, the padding and the widths of `time_t` and
`int` are left to the compiler and are parameters here; integers and doubles are
little-endian, integers two's complement, `bool` is one byte and `session_id` is the
declared array of 33 characters. -/

/-- Where the fields of `struct Session` lie in its `size` bytes. -/
structure SessionLayout where
  size : Nat
  time_width : Nat
  int_width : Nat
  off_last_activity : Nat
  off_is_active : Nat
  off_daily_withdrawal : Nat
  off_daily_transfer : Nat
  off_transaction_count : Nat
  off_session_id : Nat

/-- Every field lies inside the `sizeof(struct Session)` bytes of the record. -/
def SessionLayout.fits (l : SessionLayout) : Prop :=
  l.off_last_activity + l.time_width ≤ l.size ∧
  l.off_is_active + 1 ≤ l.size ∧
  l.off_daily_withdrawal + 8 ≤ l.size ∧
  l.off_daily_transfer + 8 ≤ l.size ∧
  l.off_transaction_count + l.int_width ≤ l.size ∧
  l.off_session_id + 33 ≤ l.size

/-- The layout of `struct Session` on a 64-bit Linux target: 8-byte `time_t`, 4-byte
`int`, fields aligned to their size, 72 bytes in all. -/
def lp64Layout : SessionLayout :=
  { size := 72
    time_width := 8
    int_width := 4
    off_last_activity := 0
    off_is_active := 8
    off_daily_withdrawal := 16
    off_daily_transfer := 24
    off_transaction_count := 32
    off_session_id := 36 }

/-- The `width` bytes of `mem` from offset `off`. -/
def fieldBytes (mem : List Nat) (off width : Nat) : List Nat :=
  (mem.drop off).take width

/-- The unsigned value of little-endian bytes. -/
def readLE : List Nat → Nat
  | [] => 0
  | b :: bs => b + 256 * readLE bs

/-- The two's complement value of little-endian bytes. -/
def decodeSigned (bytes : List Nat) : Int :=
  if readLE bytes < 2 ^ (8 * bytes.length - 1) then (readLE bytes : Int)
  else (readLE bytes : Int) - 2 ^ (8 * bytes.length)

/-- The value of a `bool` byte. -/
def decodeBool (bytes : List Nat) : Bool :=
  decide (readLE bytes ≠ 0)

/-- The value of a `double` field: the double with these bytes as bit pattern. -/
def decodeDouble (bytes : List Nat) : Double :=
  Double.ofBits (readLE bytes)

/-- The C string in a character array. -/
def decodeString (bytes : List Nat) : List Char :=
  (bytes.takeWhile (fun b => b != 0)).map Char.ofNat

/-- The session record that the bytes `mem` hold. -/
def decodeSession (l : SessionLayout) (mem : List Nat) : Session :=
  { last_activity := decodeSigned (fieldBytes mem l.off_last_activity l.time_width)
    is_active := decodeBool (fieldBytes mem l.off_is_active 1)
    daily_withdrawal := decodeDouble (fieldBytes mem l.off_daily_withdrawal 8)
    daily_transfer := decodeDouble (fieldBytes mem l.off_daily_transfer 8)
    transaction_count := decodeSigned (fieldBytes mem l.off_transaction_count l.int_width)
    session_id := decodeString (fieldBytes mem l.off_session_id 33) }

/-- The cleanup of `main`: `clearSensitiveData(&current_session, sizeof(current_session))`
on the bytes `mem` of the session record, read back as the session. -/
def wipeSession (l : SessionLayout) (s : State) (mem : List Nat) : State :=
  { s with current_session := decodeSession l (clearSensitiveData mem 0 l.size) }

/-! ## Sample data -/

/-- An empty history slot. -/
def blankTransaction : Transaction :=
  { timestamp := 0, type := [], amount := 0, details := [], transaction_id := [] }

/-- A provisioned account with the given number and balance and an empty history. -/
def sampleAccount (number : List Char) (balance : Double) : Account :=
  { name := "Customer".toList
    account_number := number
    balance := balance
    pin := { salt := [], hash := [] }
    is_locked := false
    lock_until := 0
    failed_attempts := 0
    transaction_history := fun _ => blankTransaction
    transaction_count := 0 }

/-- A fresh session opened at time `t`. -/
def sampleSession (t : Int) : Session :=
  { last_activity := t
    is_active := true
    daily_withdrawal := 0
    daily_transfer := 0
    transaction_count := 0
    session_id := [] }

/-- Three accounts with balances `b0`, `b1`, `b2`; account 0 is the current one. -/
def sampleState (b0 b1 b2 : Double) : State :=
  { accounts := fun i =>
      if i.val = 0 then sampleAccount "ACC-0001".toList b0
      else if i.val = 1 then sampleAccount "ACC-0002".toList b1
      else sampleAccount "ACC-0003".toList b2
    current_session := sampleSession 0
    current_account := 0 }

/-- The state `s` with the two cumulative totals replaced. -/
def withTotals (s : State) (dw dt : Double) : State :=
  { s with
    current_session :=
      { s.current_session with daily_withdrawal := dw, daily_transfer := dt } }

/-- The state `s` with the `transaction_count` of the current account replaced. -/
def withAccountCount (s : State) (n : Int) : State :=
  { s with
    accounts := Function.update s.accounts s.current_account
      { s.accounts s.current_account with transaction_count := n } }

/-- The double nearest to 500.01. -/
def fiveHundredAndOneCent : Double :=
  Double.fin false 8796268944068444 1030

/-- The double `2^-50`. -/
def twoToMinus50 : Double :=
  Double.fin false (2 ^ 52) 972

/-- The double nearest to 779.12. -/
def sampleBalance77912 : Double :=
  Double.fin false 6853211995462697 1031

/-- The double nearest to 49.06. -/
def sampleAmount4906 : Double :=
  Double.fin false 6904581178712392 1027

/-- A clock reading with a failing random source. -/
def sampleEnv (t : Int) : Env :=
  { now := t, rnd := none }

/-- The log call number `k`: a deposit of `k` recorded at time `k`. -/
def sampleLog (k : Nat) : LogCall :=
  { type := "DEPOSIT".toList
    amount := Double.ofInt k
    details := "cash".toList
    env := sampleEnv k }

/-! ## Facts about `double` arithmetic -/

namespace Double

/-! ## Facts about rounding -/

theorem bitLengthAux_spec (fuel : Nat) :
    ∀ n, n < 2 ^ fuel → 0 < n →
      2 ^ (bitLengthAux fuel n - 1) ≤ n ∧ n < 2 ^ bitLengthAux fuel n ∧
        0 < bitLengthAux fuel n := by
  induction fuel with
  | zero => intro n h hn; simp at h; omega
  | succ f ih =>
    intro n h hn
    have hne : n ≠ 0 := by omega
    simp only [bitLengthAux, if_neg hne]
    by_cases h2 : n / 2 = 0
    · have h1 : n = 1 := by omega
      subst h1
      cases f <;> simp [bitLengthAux]
    · have hlt : n / 2 < 2 ^ f := by
        rw [pow_succ] at h; omega
      obtain ⟨a, b, c⟩ := ih (n / 2) hlt (by omega)
      refine ⟨?_, ?_, by omega⟩
      · have e : bitLengthAux f (n / 2) + 1 - 1 = (bitLengthAux f (n / 2) - 1) + 1 := by omega
        rw [e, pow_succ]; omega
      · rw [pow_succ]; omega

theorem bitLength_spec (n : Nat) (hn : 0 < n) :
    2 ^ (bitLength n - 1) ≤ n ∧ n < 2 ^ bitLength n ∧ 0 < bitLength n :=
  bitLengthAux_spec n n (Nat.lt_two_pow n) hn

/-- How `roundUnits` rounds a magnitude of more than 53 binary digits: the quotient `q`
by the spacing `2^s` is kept or raised by one (only when the remainder is not zero), and
the result is renormalised and checked against the largest exponent. -/
theorem roundUnits_long (neg : Bool) (n : Nat) (hn : 0 < n) (hl : ¬ bitLength n ≤ 53) :
    ∃ s m m1 e1, 0 < s ∧ 2 ^ 52 ≤ n / 2 ^ s ∧ n / 2 ^ s < 2 ^ 53 ∧
      (m = n / 2 ^ s ∨ (m = n / 2 ^ s + 1 ∧ n % 2 ^ s ≠ 0)) ∧
      m1 * 2 ^ e1 = m * 2 ^ s ∧ 2 ^ 52 ≤ m1 ∧ m1 < 2 ^ 53 ∧
      roundUnits neg n = if 2045 < e1 then inf neg else fin neg m1 e1 := by
  obtain ⟨hlo, hhi, _⟩ := bitLength_spec n hn
  have hs : bitLength n = (bitLength n - 53) + 53 := by omega
  have hq1 : 2 ^ 52 ≤ n / 2 ^ (bitLength n - 53) := by
    rw [Nat.le_div_iff_mul_le (by positivity), ← pow_add]
    have e : 52 + (bitLength n - 53) = bitLength n - 1 := by omega
    rw [e]; exact hlo
  have hq2 : n / 2 ^ (bitLength n - 53) < 2 ^ 53 := by
    rw [Nat.div_lt_iff_lt_mul (by positivity), ← pow_add]
    have e : 53 + (bitLength n - 53) = bitLength n := by omega
    rw [e]; exact hhi
  have hpos : 0 < bitLength n - 53 := by omega
  by_cases hup : 2 ^ (bitLength n - 53 - 1) < n % 2 ^ (bitLength n - 53) ∨
      (n % 2 ^ (bitLength n - 53) = 2 ^ (bitLength n - 53 - 1) ∧
        n / 2 ^ (bitLength n - 53) % 2 = 1)
  · have hr : n % 2 ^ (bitLength n - 53) ≠ 0 := by
      have hp : 0 < 2 ^ (bitLength n - 53 - 1) := by positivity
      rcases hup with h | h
      · omega
      · omega
    by_cases hm : n / 2 ^ (bitLength n - 53) + 1 = 2 ^ 53
    · refine ⟨bitLength n - 53, n / 2 ^ (bitLength n - 53) + 1, 2 ^ 52, bitLength n - 53 + 1,
        hpos, hq1, hq2, Or.inr ⟨rfl, hr⟩, ?_, le_refl _, by norm_num, ?_⟩
      · rw [hm, pow_succ]; ring
      · simp only [roundUnits, if_neg hl, if_pos hup, if_pos hm]
    · refine ⟨bitLength n - 53, n / 2 ^ (bitLength n - 53) + 1,
        n / 2 ^ (bitLength n - 53) + 1, bitLength n - 53,
        hpos, hq1, hq2, Or.inr ⟨rfl, hr⟩, rfl, by omega, by omega, ?_⟩
      simp only [roundUnits, if_neg hl, if_pos hup, if_neg hm]
  · have hm : ¬ n / 2 ^ (bitLength n - 53) = 2 ^ 53 := by omega
    refine ⟨bitLength n - 53, n / 2 ^ (bitLength n - 53), n / 2 ^ (bitLength n - 53),
      bitLength n - 53, hpos, hq1, hq2, Or.inl rfl, rfl, hq1, hq2, ?_⟩
    simp only [roundUnits, if_neg hl, if_neg hup, if_neg hm]

/-- Rounding does not go below a double that the exact value reaches: if
`my * 2^ey <= n` with `my < 2^53`, the rounded value is at least `my * 2^ey`. -/
theorem roundUnits_lower (neg : Bool) (n my ey : Nat) (hn : 0 < n) (hmy : my < 2 ^ 53)
    (h : my * 2 ^ ey ≤ n) :
    roundUnits neg n = inf neg ∨
      ∃ m e, roundUnits neg n = fin neg m e ∧ my * 2 ^ ey ≤ m * 2 ^ e := by
  by_cases hl : bitLength n ≤ 53
  · right
    refine ⟨n, 0, by simp only [roundUnits, if_pos hl], by simpa using h⟩
  · obtain ⟨s, m, m1, e1, hs, hq1, hq2, hm, hval, _, _, hr⟩ := roundUnits_long neg n hn hl
    have hqm : n / 2 ^ s ≤ m := by rcases hm with h1 | h1 <;> omega
    have hkey : my * 2 ^ ey ≤ n / 2 ^ s * 2 ^ s := by
      by_cases hes : s ≤ ey
      · have e : ey = (ey - s) + s := by omega
        rw [e, pow_add, ← mul_assoc] at h ⊢
        apply Nat.mul_le_mul_right
        rw [Nat.le_div_iff_mul_le (by positivity)]
        exact h
      · have h1 : my * 2 ^ ey ≤ 2 ^ 53 * 2 ^ ey := Nat.mul_le_mul_right _ (le_of_lt hmy)
        have h2 : 2 ^ 53 * 2 ^ ey ≤ 2 ^ 52 * 2 ^ s := by
          rw [← pow_add, ← pow_add]
          exact Nat.pow_le_pow_right (by norm_num) (by omega)
        have h3 : 2 ^ 52 * 2 ^ s ≤ n / 2 ^ s * 2 ^ s := Nat.mul_le_mul_right _ hq1
        omega
    have hfin : my * 2 ^ ey ≤ m1 * 2 ^ e1 := by
      rw [hval]
      exact le_trans hkey (Nat.mul_le_mul_right _ hqm)
    rw [hr]
    by_cases ho : 2045 < e1
    · left; rw [if_pos ho]
    · right; rw [if_neg ho]; exact ⟨m1, e1, rfl, hfin⟩

/-- Rounding does not go above a double that bounds the exact value: if
`n <= my * 2^ey` with `my < 2^53` and `ey <= 2045`, the rounded value is finite and at
most `my * 2^ey`. -/
theorem roundUnits_upper (neg : Bool) (n my ey : Nat) (hn : 0 < n) (hmy : my < 2 ^ 53)
    (hey : ey ≤ 2045) (h : n ≤ my * 2 ^ ey) :
    ∃ m e, roundUnits neg n = fin neg m e ∧ m * 2 ^ e ≤ my * 2 ^ ey := by
  by_cases hl : bitLength n ≤ 53
  · refine ⟨n, 0, by simp only [roundUnits, if_pos hl], by simpa using h⟩
  · obtain ⟨s, m, m1, e1, hs, hq1, hq2, hm, hval, hm1, _, hr⟩ := roundUnits_long neg n hn hl
    have hdiv : n / 2 ^ s * 2 ^ s ≤ n := Nat.div_mul_le_self n (2 ^ s)
    have hes : s ≤ ey := by
      by_contra hc
      have h1 : my * 2 ^ ey < 2 ^ 53 * 2 ^ ey :=
        Nat.mul_lt_mul_of_pos_right hmy (by positivity)
      have h2 : 2 ^ 53 * 2 ^ ey ≤ 2 ^ 52 * 2 ^ s := by
        rw [← pow_add, ← pow_add]
        exact Nat.pow_le_pow_right (by norm_num) (by omega)
      have h3 : 2 ^ 52 * 2 ^ s ≤ n / 2 ^ s * 2 ^ s := Nat.mul_le_mul_right _ hq1
      omega
    have e : ey = (ey - s) + s := by omega
    have hy : my * 2 ^ ey = my * 2 ^ (ey - s) * 2 ^ s := by
      conv_lhs => rw [e, pow_add, ← mul_assoc]
    have hfin : m * 2 ^ s ≤ my * 2 ^ ey := by
      rcases hm with h1 | ⟨h1, hrem⟩
      · rw [h1]; omega
      · rw [hy, h1]
        apply Nat.mul_le_mul_right
        have hlt : n / 2 ^ s * 2 ^ s < n := by
          have := Nat.div_add_mod n (2 ^ s)
          have hpos : 0 < n % 2 ^ s := Nat.pos_of_ne_zero hrem
          nlinarith [Nat.mul_comm (2 ^ s) (n / 2 ^ s)]
        have hlt2 : n / 2 ^ s * 2 ^ s < my * 2 ^ (ey - s) * 2 ^ s := by
          rw [← hy]; omega
        have := Nat.lt_of_mul_lt_mul_right hlt2
        omega
    have he1 : e1 ≤ 2045 := by
      by_contra hc
      have h1 : 2 ^ 52 * 2 ^ e1 ≤ m1 * 2 ^ e1 := Nat.mul_le_mul_right _ hm1
      have h2 : my * 2 ^ ey < 2 ^ 53 * 2 ^ 2045 := by
        calc my * 2 ^ ey < 2 ^ 53 * 2 ^ ey :=
              Nat.mul_lt_mul_of_pos_right hmy (by positivity)
          _ ≤ 2 ^ 53 * 2 ^ 2045 :=
              Nat.mul_le_mul_left _ (Nat.pow_le_pow_right (by norm_num) hey)
      have h3 : 2 ^ 53 * 2 ^ 2045 ≤ 2 ^ 52 * 2 ^ e1 := by
        rw [← pow_add, ← pow_add]
        exact Nat.pow_le_pow_right (by norm_num) (by omega)
      rw [hval] at h1
      omega
    rw [hr, if_neg (by omega)]
    exact ⟨m1, e1, rfl, by rw [hval]; exact hfin⟩

theorem signed_not (s : Bool) (n : Nat) : signed (!s) n = -signed s n := by
  cases s <;> simp [signed]

theorem signed_false (n : Nat) : signed false n = (n : Int) := rfl

theorem signed_le_natCast (s : Bool) (n : Nat) : signed s n ≤ (n : Int) := by
  cases s
  · simp [signed]
  · simp only [signed, if_true]
    have : (0 : Int) ≤ (n : Int) := Int.natCast_nonneg n
    omega

/-- Rounding keeps the sign: the result is an infinity or a finite number of the sign
asked for. -/
theorem roundUnits_sign (neg : Bool) (n : Nat) (hn : 0 < n) :
    roundUnits neg n = inf neg ∨ ∃ m e, roundUnits neg n = fin neg m e := by
  rcases roundUnits_lower neg n 0 0 hn (by norm_num) (by omega) with h | ⟨m, e, h, _⟩
  · exact Or.inl h
  · exact Or.inr ⟨m, e, h⟩

/-- The rounding of an exact value that is not negative is not negative. -/
theorem ofUnits_nonneg (zs : Bool) (z : Int) (hz : 0 ≤ z) :
    ofUnits zs z = inf false ∨ ∃ s m e, ofUnits zs z = fin s m e ∧ 0 ≤ signed s (m * 2 ^ e) := by
  unfold ofUnits
  by_cases h0 : z = 0
  · rw [if_pos h0]
    exact Or.inr ⟨zs, 0, 0, rfl, by cases zs <;> simp [signed]⟩
  · rw [if_neg h0]
    have hneg : decide (z < 0) = false := by simpa using hz
    rw [hneg]
    rcases roundUnits_sign false z.natAbs (by omega) with h | ⟨m, e, h⟩
    · exact Or.inl h
    · exact Or.inr ⟨false, m, e, h, by simp [signed]⟩

/-- The rounding of an exact value that reaches a positive double is at least that
double. -/
theorem ofUnits_lower (zs : Bool) (z : Int) (my ey : Nat) (hmy : my < 2 ^ 53)
    (hpos : 0 < my * 2 ^ ey) (h : ((my * 2 ^ ey : Nat) : Int) ≤ z) :
    ofUnits zs z = inf false ∨
      ∃ m e, ofUnits zs z = fin false m e ∧ my * 2 ^ ey ≤ m * 2 ^ e := by
  unfold ofUnits
  have h0 : z ≠ 0 := by omega
  have hneg : decide (z < 0) = false := by simp; omega
  rw [if_neg h0, hneg]
  exact roundUnits_lower false z.natAbs my ey (by omega) hmy (by omega)

/-- The rounding of a positive exact value that a double bounds is finite and at most
that double. -/
theorem ofUnits_upper (zs : Bool) (z : Int) (my ey : Nat) (hmy : my < 2 ^ 53)
    (hey : ey ≤ 2045) (hpos : 0 < z) (h : z ≤ ((my * 2 ^ ey : Nat) : Int)) :
    ∃ m e, ofUnits zs z = fin false m e ∧ m * 2 ^ e ≤ my * 2 ^ ey := by
  unfold ofUnits
  have h0 : z ≠ 0 := by omega
  have hneg : decide (z < 0) = false := by simp; omega
  rw [if_neg h0, hneg]
  exact roundUnits_upper false z.natAbs my ey (by omega) hmy hey (by omega)

/-- The rounding of an exact value that is not positive is not positive. -/
theorem ofUnits_nonpos (zs : Bool) (z : Int) (hz : z ≤ 0) :
    ofUnits zs z = inf true ∨ ∃ s m e, ofUnits zs z = fin s m e ∧ signed s (m * 2 ^ e) ≤ 0 := by
  unfold ofUnits
  by_cases h0 : z = 0
  · rw [if_pos h0]
    exact Or.inr ⟨zs, 0, 0, rfl, by cases zs <;> simp [signed]⟩
  · rw [if_neg h0]
    have hneg : decide (z < 0) = true := by simp; omega
    rw [hneg]
    rcases roundUnits_sign true z.natAbs (by omega) with h | ⟨m, e, h⟩
    · exact Or.inl h
    · exact Or.inr ⟨true, m, e, h, by simp [signed]⟩

theorem add_fin_fin (s1 : Bool) (m1 e1 : Nat) (s2 : Bool) (m2 e2 : Nat) :
    add (fin s1 m1 e1) (fin s2 m2 e2) =
      ofUnits (s1 && s2) (signed s1 (m1 * 2 ^ e1) + signed s2 (m2 * 2 ^ e2)) := rfl

theorem sub_fin_fin (s1 : Bool) (m1 e1 : Nat) (s2 : Bool) (m2 e2 : Nat) :
    sub (fin s1 m1 e1) (fin s2 m2 e2) =
      ofUnits (s1 && !s2) (signed s1 (m1 * 2 ^ e1) - signed s2 (m2 * 2 ^ e2)) := by
  show ofUnits (s1 && !s2) (signed s1 (m1 * 2 ^ e1) + signed (!s2) (m2 * 2 ^ e2)) = _
  rw [signed_not, sub_eq_add_neg]

end Double

theorem Double.gt_def (a b : Double) : (a > b) ↔ Double.gt a b = true := Iff.rfl

theorem Double.le_def (a b : Double) : (a ≤ b) ↔ Double.le a b = true := Iff.rfl

theorem Double.add_def (a b : Double) : a + b = Double.add a b := rfl

theorem Double.sub_def (a b : Double) : a - b = Double.sub a b := rfl

theorem Double.gt_fin_fin (s1 : Bool) (m1 e1 : Nat) (s2 : Bool) (m2 e2 : Nat) :
    (Double.fin s1 m1 e1 > Double.fin s2 m2 e2) ↔
      Double.signed s2 (m2 * 2 ^ e2) < Double.signed s1 (m1 * 2 ^ e1) := by
  rw [Double.gt_def]
  simp [Double.gt]

theorem Double.le_fin_fin (s1 : Bool) (m1 e1 : Nat) (s2 : Bool) (m2 e2 : Nat) :
    (Double.fin s1 m1 e1 ≤ Double.fin s2 m2 e2) ↔
      Double.signed s1 (m1 * 2 ^ e1) ≤ Double.signed s2 (m2 * 2 ^ e2) := by
  rw [Double.le_def]
  simp [Double.le]

theorem Double.zero_eq : (0 : Double) = Double.fin false 0 0 := by decide!

theorem Double.le_trans (a b c : Double) (h1 : a ≤ b) (h2 : b ≤ c) : a ≤ c := by
  rw [Double.le_def] at *
  cases a with
  | nan s => simp [Double.le] at h1
  | inf s1 =>
    cases b with
    | nan s => simp [Double.le] at h1
    | inf s2 =>
      cases c with
      | nan s => simp [Double.le] at h2
      | inf s3 => cases s1 <;> cases s2 <;> cases s3 <;> simp_all [Double.le]
      | fin s3 m3 e3 => cases s1 <;> cases s2 <;> simp_all [Double.le]
    | fin s2 m2 e2 =>
      cases c with
      | nan s => simp [Double.le] at h2
      | inf s3 => cases s1 <;> cases s3 <;> simp_all [Double.le]
      | fin s3 m3 e3 => cases s1 <;> simp_all [Double.le]
  | fin s1 m1 e1 =>
    cases b with
    | nan s => simp [Double.le] at h1
    | inf s2 =>
      cases c with
      | nan s => simp [Double.le] at h2
      | inf s3 => cases s2 <;> cases s3 <;> simp_all [Double.le]
      | fin s3 m3 e3 => cases s2 <;> simp_all [Double.le]
    | fin s2 m2 e2 =>
      cases c with
      | nan s => simp [Double.le] at h2
      | inf s3 => cases s3 <;> simp_all [Double.le]
      | fin s3 m3 e3 =>
        simp only [Double.le, decide_eq_true_eq] at h1 h2 ⊢
        omega

/-- Operands of a comparison that holds are not NaNs. -/
theorem Double.le_isNaN (a b : Double) (h : a ≤ b) : a.isNaN = false ∧ b.isNaN = false := by
  rw [Double.le_def] at h
  cases a <;> cases b <;> simp_all [Double.le, Double.isNaN]

/-- The sum of two numbers that are not negative is not negative. -/
theorem Double.add_nonneg (x a : Double) (hx : 0 ≤ x) (ha : 0 ≤ a) : 0 ≤ x + a := by
  rw [Double.zero_eq] at *
  cases a with
  | nan s => rw [Double.le_def] at ha; simp [Double.le] at ha
  | inf sa =>
    rw [Double.le_def] at ha
    cases sa
    · cases x with
      | nan s => rw [Double.le_def] at hx; simp [Double.le] at hx
      | inf sx =>
        rw [Double.le_def] at hx
        cases sx
        · rw [Double.le_def]; rfl
        · simp [Double.le] at hx
      | fin sx mx ex => rw [Double.le_def]; rfl
    · simp [Double.le] at ha
  | fin sa ma ea =>
    rw [Double.le_fin_fin, Double.signed_false] at ha
    cases x with
    | nan s => rw [Double.le_def] at hx; simp [Double.le] at hx
    | inf sx =>
      rw [Double.le_def] at hx
      cases sx
      · rw [Double.le_def]; rfl
      · simp [Double.le] at hx
    | fin sx mx ex =>
      rw [Double.le_fin_fin, Double.signed_false] at hx
      rw [Double.add_def, Double.add_fin_fin]
      rcases Double.ofUnits_nonneg (sx && sa)
          (Double.signed sx (mx * 2 ^ ex) + Double.signed sa (ma * 2 ^ ea))
          (by omega) with h1 | ⟨s, m, e, h1, h2⟩
      · rw [h1, Double.le_def]; rfl
      · rw [h1, Double.le_fin_fin, Double.signed_false]
        exact_mod_cast h2

/-- An amount above the double `l` added to a total that is not negative exceeds every
double `c` below `l`. -/
theorem Double.add_gt (d a : Double) (ml el mc ec : Nat) (hml : ml < 2 ^ 53)
    (hlt : mc * 2 ^ ec < ml * 2 ^ el) (ha : a > Double.fin false ml el) (hd : 0 ≤ d) :
    d + a > Double.fin false mc ec := by
  rw [Double.zero_eq] at hd
  cases a with
  | nan s => rw [Double.gt_def] at ha; simp [Double.gt] at ha
  | inf sa =>
    rw [Double.gt_def] at ha
    cases sa
    · cases d with
      | nan s => rw [Double.le_def] at hd; simp [Double.le] at hd
      | inf sd =>
        rw [Double.le_def] at hd
        cases sd
        · rw [Double.gt_def]; rfl
        · simp [Double.le] at hd
      | fin sd md ed => rw [Double.gt_def]; rfl
    · simp [Double.gt] at ha
  | fin sa ma ea =>
    rw [Double.gt_fin_fin, Double.signed_false] at ha
    cases d with
    | nan s => rw [Double.le_def] at hd; simp [Double.le] at hd
    | inf sd =>
      rw [Double.le_def] at hd
      cases sd
      · rw [Double.gt_def]; rfl
      · simp [Double.le] at hd
    | fin sd md ed =>
      rw [Double.le_fin_fin, Double.signed_false] at hd
      rw [Double.add_def, Double.add_fin_fin]
      rcases Double.ofUnits_lower (sd && sa)
          (Double.signed sd (md * 2 ^ ed) + Double.signed sa (ma * 2 ^ ea)) ml el hml
          (by omega) (by omega) with h1 | ⟨m, e, h1, h2⟩
      · rw [h1, Double.gt_def]; rfl
      · rw [h1, Double.gt_fin_fin]
        simp only [Double.signed_false]
        have : ((mc * 2 ^ ec : Nat) : Int) < ((m * 2 ^ e : Nat) : Int) := by
          exact_mod_cast lt_of_lt_of_le hlt h2
        exact_mod_cast this

/-- A finite debit that the guard `amount > balance - reserve` lets through leaves a
balance that is not negative, when the balance was not negative. -/
theorem Double.debit_nonneg (b a y : Double) (my ey : Nat) (hy : y = Double.fin false my ey)
    (hb : 0 ≤ b) (hb64 : b.isBinary64 = true) (ha : a.isFinite = true) (hg : ¬ a > b - y) :
    0 ≤ b - a := by
  subst hy
  rw [Double.zero_eq] at *
  cases a with
  | nan s => simp [Double.isFinite] at ha
  | inf s => simp [Double.isFinite] at ha
  | fin sa ma ea =>
    cases b with
    | nan s => rw [Double.le_def] at hb; simp [Double.le] at hb
    | inf sb =>
      rw [Double.le_def] at hb
      cases sb
      · rw [Double.le_def]; rfl
      · simp [Double.le] at hb
    | fin sb mb eb =>
      rw [Double.le_fin_fin, Double.signed_false] at hb
      obtain ⟨h53, h2045⟩ : mb < 2 ^ 53 ∧ eb ≤ 2045 := by
        simpa [Double.isBinary64] using hb64
      have hbn : Double.signed sb (mb * 2 ^ eb) = ((mb * 2 ^ eb : Nat) : Int) := by
        cases sb
        · rfl
        · simp only [Double.signed, if_true] at hb ⊢
          omega
      have key : Double.signed sa (ma * 2 ^ ea) ≤ Double.signed sb (mb * 2 ^ eb) := by
        rw [Double.sub_def, Double.sub_fin_fin] at hg
        by_cases hp : 0 < Double.signed sb (mb * 2 ^ eb) - Double.signed false (my * 2 ^ ey)
        · obtain ⟨m, e, h1, h2⟩ := Double.ofUnits_upper (sb && !false)
            (Double.signed sb (mb * 2 ^ eb) - Double.signed false (my * 2 ^ ey)) mb eb h53
            h2045 hp (by
              rw [hbn]
              have : (0 : Int) ≤ Double.signed false (my * 2 ^ ey) := by
                rw [Double.signed_false]; exact Int.natCast_nonneg _
              omega)
          rw [h1, Double.gt_fin_fin, Double.signed_false] at hg
          have h3 : ((m * 2 ^ e : Nat) : Int) ≤ ((mb * 2 ^ eb : Nat) : Int) := by
            exact_mod_cast h2
          rw [hbn]
          omega
        · rcases Double.ofUnits_nonpos (sb && !false)
            (Double.signed sb (mb * 2 ^ eb) - Double.signed false (my * 2 ^ ey))
            (by omega) with h1 | ⟨s, m, e, h1, h2⟩
          · rw [h1] at hg
            exact absurd (by rw [Double.gt_def]; rfl) hg
          · rw [h1, Double.gt_fin_fin] at hg
            omega
      rw [Double.sub_def, Double.sub_fin_fin]
      rcases Double.ofUnits_nonneg (sb && !sa)
          (Double.signed sb (mb * 2 ^ eb) - Double.signed sa (ma * 2 ^ ea))
          (by omega) with h1 | ⟨s, m, e, h1, h2⟩
      · rw [h1, Double.le_def]; rfl
      · rw [h1, Double.le_fin_fin, Double.signed_false]
        exact_mod_cast h2

/-! ## Exact results -/

namespace Double

end Double

/-- The encoding of 1.0 (`0x3FF0000000000000`), 500.0 (`0x407F400000000000`), -0.0, the
smallest and the largest double, and infinity. -/
theorem Double.ofBits_known :
    Double.ofBits 4607182418800017408 = 1 ∧
    Double.ofBits 4647503709213818880 = 500 ∧
    Double.ofBits 9223372036854775808 = -0 ∧
    Double.ofBits 1 = Double.fin false 1 0 ∧
    Double.ofBits 9218868437227405311 = Double.fin false (2 ^ 53 - 1) 2045 ∧
    Double.ofBits 9218868437227405312 = Double.inf false := by
  decide!

/-- The sample amounts are the doubles nearest to 500.01 (`0x407F4028F5C28F5C`), to
779.12 (`0x408858F5C28F5C29`) and to 49.06 (`0x404887AE147AE148`), and 2^-50
(`0x3CD0000000000000`). -/
theorem sample_amounts_bits :
    fiveHundredAndOneCent = Double.ofBits 4647503885135679324 ∧
    sampleBalance77912 = Double.ofBits 4650064427814444073 ∧
    sampleAmount4906 = Double.ofBits 4632101398488211784 ∧
    twoToMinus50 = Double.ofBits 4382002437431492608 ∧
    Double.ofInt (10 ^ 17) = Double.ofBits 4861130398305394688 ∧
    Double.ofInt (10 ^ 17 - 496) = Double.ofBits 4861130398305394657 := by
  decide!

/-- Sums and differences round as the hardware does: `0.1 + 0.2` is
`0.30000000000000004`, `1e17 - 500` is `1e17 - 496`, `5000 + 2^-50` is 5000, the largest
double added to itself is infinity, and `inf - inf` is a NaN. -/
theorem Double.arithmetic_known :
    Double.ofBits 4591870180066957722 + Double.ofBits 4596373779694328218 =
      Double.ofBits 4599075939470750516 ∧
    Double.ofInt (10 ^ 17) - 500 = Double.ofInt (10 ^ 17 - 496) ∧
    (5000 : Double) + twoToMinus50 = 5000 ∧
    Double.ofBits 9218868437227405311 + Double.ofBits 9218868437227405311 =
      Double.inf false ∧
    (Double.inf false - Double.inf false).isNaN = true ∧
    sampleBalance77912 - sampleAmount4906 + sampleAmount4906 =
      Double.ofBits 4650064427814444072 := by
  decide!

/-- Comparisons with a NaN are false, and the two zeros compare equal. -/
theorem Double.comparisons_known :
    ¬ Double.nan false > 5000 ∧ ¬ (5000 : Double) > Double.nan false ∧
    ¬ Double.nan false ≤ 5000 ∧ ¬ (0 : Double) > -0 ∧ (0 : Double) ≤ -0 ∧
    (-0 : Double) ≤ 0 := by
  decide!

/-- The conversion `%.2f` at sample values. -/
theorem formatFixed2_known :
    formatFixed2 200 = "200.00".toList ∧
    formatFixed2 fiveHundredAndOneCent = "500.01".toList ∧
    formatFixed2 (-100) = "-100.00".toList ∧
    formatFixed2 twoToMinus50 = "0.00".toList ∧
    formatFixed2 (Double.ofBits 4590789316156388803) = "0.09".toList ∧
    formatFixed2 (Double.ofBits 4593671619917905920) = "0.12".toList ∧
    formatFixed2 (Double.nan true) = "-nan".toList ∧
    formatFixed2 (Double.inf false) = "inf".toList := by
  decide!

/-! ## Basic facts about the operations -/

theorem logTransaction_current_account (s : State) (ty : List Char) (a : Double)
    (d : List Char) (env : Env) :
    (logTransaction s ty a d env).current_account = s.current_account := rfl

theorem logTransaction_balance (s : State) (ty : List Char) (a : Double) (d : List Char)
    (env : Env) (i : Fin MAX_ACCOUNTS) :
    ((logTransaction s ty a d env).accounts i).balance = (s.accounts i).balance := by
  unfold logTransaction
  by_cases h : i = s.current_account
  · subst h; simp
  · simp [Function.update_noteq h]

theorem logTransaction_daily_withdrawal (s : State) (ty : List Char) (a : Double)
    (d : List Char) (env : Env) :
    (logTransaction s ty a d env).current_session.daily_withdrawal =
      s.current_session.daily_withdrawal := rfl

theorem logTransaction_daily_transfer (s : State) (ty : List Char) (a : Double)
    (d : List Char) (env : Env) :
    (logTransaction s ty a d env).current_session.daily_transfer =
      s.current_session.daily_transfer := rfl

theorem error_codes_ne_success :
    ERROR_DAILY_LIMIT_EXCEEDED ≠ SUCCESS ∧ ERROR_INSUFFICIENT_FUNDS ≠ SUCCESS ∧
      ERROR_DAILY_LIMIT_EXCEEDED ≠ ERROR_INSUFFICIENT_FUNDS := by
  decide

/-- Rejection of a withdrawal by the daily limit. -/
theorem withdrawal_over_limit (s : State) (amount : Double) (env : Env)
    (h : s.current_session.daily_withdrawal + amount > MAX_DAILY_WITHDRAWAL) :
    performSecureWithdrawal s amount env = (ERROR_DAILY_LIMIT_EXCEEDED, s) := by
  unfold performSecureWithdrawal
  rw [if_pos h]

/-- Rejection of a withdrawal by the minimum balance. -/
theorem withdrawal_short_funds (s : State) (amount : Double) (env : Env)
    (h1 : ¬ s.current_session.daily_withdrawal + amount > MAX_DAILY_WITHDRAWAL)
    (h2 : amount > (s.accounts s.current_account).balance - MIN_BALANCE) :
    performSecureWithdrawal s amount env = (ERROR_INSUFFICIENT_FUNDS, s) := by
  unfold performSecureWithdrawal
  rw [if_neg h1, if_pos h2]

/-- An accepted withdrawal: code, balances and cumulative totals afterwards. -/
theorem withdrawal_accepted (s : State) (amount : Double) (env : Env)
    (h1 : ¬ s.current_session.daily_withdrawal + amount > MAX_DAILY_WITHDRAWAL)
    (h2 : ¬ amount > (s.accounts s.current_account).balance - MIN_BALANCE) :
    (performSecureWithdrawal s amount env).1 = SUCCESS ∧
    (performSecureWithdrawal s amount env).2.current_account = s.current_account ∧
    (∀ i, ((performSecureWithdrawal s amount env).2.accounts i).balance =
      if i = s.current_account then (s.accounts i).balance - amount
      else (s.accounts i).balance) ∧
    (performSecureWithdrawal s amount env).2.current_session.daily_withdrawal =
      s.current_session.daily_withdrawal + amount ∧
    (performSecureWithdrawal s amount env).2.current_session.daily_transfer =
      s.current_session.daily_transfer := by
  unfold performSecureWithdrawal
  rw [if_neg h1, if_neg h2]
  refine ⟨rfl, rfl, ?_, rfl, rfl⟩
  intro i
  simp only [logTransaction_balance]
  by_cases h : i = s.current_account
  · subst h; simp
  · simp [Function.update_noteq h, h]

/-- The three outcomes of a withdrawal. -/
theorem withdrawal_code_cases (s : State) (amount : Double) (env : Env) :
    (performSecureWithdrawal s amount env).1 = ERROR_DAILY_LIMIT_EXCEEDED ∨
    (performSecureWithdrawal s amount env).1 = ERROR_INSUFFICIENT_FUNDS ∨
    (performSecureWithdrawal s amount env).1 = SUCCESS := by
  unfold performSecureWithdrawal
  split_ifs <;> simp

/-- Rejection of a transfer by the daily limit. -/
theorem transfer_over_limit (s : State) (t : Fin MAX_ACCOUNTS) (amount : Double) (env : Env)
    (h : s.current_session.daily_transfer + amount > MAX_DAILY_TRANSFER) :
    performSecureTransfer s t amount env = (ERROR_DAILY_LIMIT_EXCEEDED, s) := by
  unfold performSecureTransfer
  rw [if_pos h]

/-- Rejection of a transfer by the minimum balance of the source account. -/
theorem transfer_short_funds (s : State) (t : Fin MAX_ACCOUNTS) (amount : Double) (env : Env)
    (h1 : ¬ s.current_session.daily_transfer + amount > MAX_DAILY_TRANSFER)
    (h2 : amount > (s.accounts s.current_account).balance - MIN_BALANCE) :
    performSecureTransfer s t amount env = (ERROR_INSUFFICIENT_FUNDS, s) := by
  unfold performSecureTransfer
  rw [if_neg h1, if_pos h2]

/-- An accepted transfer: code, balances and cumulative totals afterwards. -/
theorem transfer_accepted (s : State) (t : Fin MAX_ACCOUNTS) (amount : Double) (env : Env)
    (h1 : ¬ s.current_session.daily_transfer + amount > MAX_DAILY_TRANSFER)
    (h2 : ¬ amount > (s.accounts s.current_account).balance - MIN_BALANCE) :
    (performSecureTransfer s t amount env).1 = SUCCESS ∧
    (performSecureTransfer s t amount env).2.current_account = s.current_account ∧
    (∀ i, ((performSecureTransfer s t amount env).2.accounts i).balance =
      balanceAfterTransfer s t amount i) ∧
    (performSecureTransfer s t amount env).2.current_session.daily_transfer =
      s.current_session.daily_transfer + amount ∧
    (performSecureTransfer s t amount env).2.current_session.daily_withdrawal =
      s.current_session.daily_withdrawal := by
  unfold performSecureTransfer
  rw [if_neg h1, if_neg h2]
  refine ⟨rfl, rfl, ?_, rfl, rfl⟩
  intro i
  simp only [logTransaction_balance, balanceAfterTransfer]
  by_cases hi : i = t
  · subst hi
    by_cases hc : i = s.current_account
    · subst hc; simp
    · simp [Function.update_noteq hc, hc]
  · by_cases hc : i = s.current_account
    · subst hc; simp [Function.update_noteq hi, hi]
    · simp [Function.update_noteq hi, Function.update_noteq hc, hi, hc]

/-- The three outcomes of a transfer. -/
theorem transfer_code_cases (s : State) (t : Fin MAX_ACCOUNTS) (amount : Double) (env : Env) :
    (performSecureTransfer s t amount env).1 = ERROR_DAILY_LIMIT_EXCEEDED ∨
    (performSecureTransfer s t amount env).1 = ERROR_INSUFFICIENT_FUNDS ∨
    (performSecureTransfer s t amount env).1 = SUCCESS := by
  unfold performSecureTransfer
  split_ifs <;> simp

/-- A withdrawal that returned `SUCCESS` passed both guards. -/
theorem withdrawal_success_guards (s : State) (amount : Double) (env : Env)
    (hs : (performSecureWithdrawal s amount env).1 = SUCCESS) :
    ¬ s.current_session.daily_withdrawal + amount > MAX_DAILY_WITHDRAWAL ∧
    ¬ amount > (s.accounts s.current_account).balance - MIN_BALANCE := by
  constructor
  · intro h1
    rw [withdrawal_over_limit s amount env h1] at hs
    exact error_codes_ne_success.1 hs
  · intro h2
    by_cases h1 : s.current_session.daily_withdrawal + amount > MAX_DAILY_WITHDRAWAL
    · rw [withdrawal_over_limit s amount env h1] at hs
      exact error_codes_ne_success.1 hs
    · rw [withdrawal_short_funds s amount env h1 h2] at hs
      exact error_codes_ne_success.2.1 hs

/-- A transfer that returned `SUCCESS` passed both guards. -/
theorem transfer_success_guards (s : State) (t : Fin MAX_ACCOUNTS) (amount : Double) (env : Env)
    (hs : (performSecureTransfer s t amount env).1 = SUCCESS) :
    ¬ s.current_session.daily_transfer + amount > MAX_DAILY_TRANSFER ∧
    ¬ amount > (s.accounts s.current_account).balance - MIN_BALANCE := by
  constructor
  · intro h1
    rw [transfer_over_limit s t amount env h1] at hs
    exact error_codes_ne_success.1 hs
  · intro h2
    by_cases h1 : s.current_session.daily_transfer + amount > MAX_DAILY_TRANSFER
    · rw [transfer_over_limit s t amount env h1] at hs
      exact error_codes_ne_success.1 hs
    · rw [transfer_short_funds s t amount env h1 h2] at hs
      exact error_codes_ne_success.2.1 hs

/-! ## Facts about the reserve -/

theorem MIN_BALANCE_eq : MIN_BALANCE = Double.fin false 8796093022208000 1030 := by decide!

/-- C4: if `performSecureWithdrawal` or `performSecureTransfer` returns a code other
than `SUCCESS`, the whole state afterwards is the state before the call: every
account (balance, history, `transaction_count`) and the session (`daily_withdrawal`,
`daily_transfer`, `transaction_count`, `last_activity`) are unchanged. -/
theorem rejection_changes_nothing (s : State) (t : Fin MAX_ACCOUNTS) (amount : Double)
    (env : Env) :
    ((performSecureWithdrawal s amount env).1 ≠ SUCCESS →
      (performSecureWithdrawal s amount env).2 = s) ∧
    ((performSecureTransfer s t amount env).1 ≠ SUCCESS →
      (performSecureTransfer s t amount env).2 = s) := by
  constructor
  · intro hne
    by_cases h1 : s.current_session.daily_withdrawal + amount > MAX_DAILY_WITHDRAWAL
    · rw [withdrawal_over_limit s amount env h1]
    · by_cases h2 : amount > (s.accounts s.current_account).balance - MIN_BALANCE
      · rw [withdrawal_short_funds s amount env h1 h2]
      · exact absurd (withdrawal_accepted s amount env h1 h2).1 hne
  · intro hne
    by_cases h1 : s.current_session.daily_transfer + amount > MAX_DAILY_TRANSFER
    · rw [transfer_over_limit s t amount env h1]
    · by_cases h2 : amount > (s.accounts s.current_account).balance - MIN_BALANCE
      · rw [transfer_short_funds s t amount env h1 h2]
      · exact absurd (transfer_accepted s t amount env h1 h2).1 hne

/-- C4, at a concrete state: withdrawing 600 out of 1000 and transferring 20000 are both
rejected and leave the state as it was. -/
theorem rejection_changes_nothing_witness :
    (performSecureWithdrawal (sampleState 1000 0 0) 600 (sampleEnv 5)).1 ≠ SUCCESS ∧
    (performSecureWithdrawal (sampleState 1000 0 0) 600 (sampleEnv 5)).2 =
      sampleState 1000 0 0 ∧
    (performSecureTransfer (sampleState 1000 0 0) 1 20000 (sampleEnv 5)).1 ≠ SUCCESS ∧
    (performSecureTransfer (sampleState 1000 0 0) 1 20000 (sampleEnv 5)).2 =
      sampleState 1000 0 0 := by
  have hb : ((sampleState 1000 0 0).accounts (sampleState 1000 0 0).current_account).balance
      = 1000 := rfl
  have hd : (sampleState 1000 0 0).current_session.daily_withdrawal = 0 := rfl
  have ht : (sampleState 1000 0 0).current_session.daily_transfer = 0 := rfl
  have h1 : ¬ (sampleState 1000 0 0).current_session.daily_withdrawal + 600 >
      MAX_DAILY_WITHDRAWAL := by
    decide!
  have h2 : (600 : Double) >
      ((sampleState 1000 0 0).accounts (sampleState 1000 0 0).current_account).balance
        - MIN_BALANCE := by
    decide!
  have h3 : (sampleState 1000 0 0).current_session.daily_transfer + 20000 >
      MAX_DAILY_TRANSFER := by
    decide!
  have n1 : (performSecureWithdrawal (sampleState 1000 0 0) 600 (sampleEnv 5)).1 ≠ SUCCESS := by
    rw [withdrawal_short_funds _ _ _ h1 h2]; exact error_codes_ne_success.2.1
  have n2 : (performSecureTransfer (sampleState 1000 0 0) 1 20000 (sampleEnv 5)).1
      ≠ SUCCESS := by
    rw [transfer_over_limit _ _ _ _ h3]; exact error_codes_ne_success.1
  exact ⟨n1, (rejection_changes_nothing (sampleState 1000 0 0) 1 600 (sampleEnv 5)).1 n1,
    n2, (rejection_changes_nothing (sampleState 1000 0 0) 1 20000 (sampleEnv 5)).2 n2⟩

/-! ## Transfer -/

/-- C6, as stated over exact amounts, fails: with `daily_transfer` at 10000 and source
balance 20000, a transfer of 2^-50 (a positive amount, so the exact total would exceed
10000) returns `SUCCESS`, because the double sum `10000 + 2^-50` is 10000; afterwards
`daily_transfer` is still 10000 and has not grown by the amount. -/
theorem transfer_decision_counterexample :
    (0 : Double) < twoToMinus50 ∧
    twoToMinus50.toUnits = some (2 ^ 1024) ∧
    (withTotals (sampleState 20000 0 0) 0 10000).current_session.daily_transfer.toUnits =
      some (10000 * 2 ^ 1074) ∧
    MAX_DAILY_TRANSFER.toUnits = some (10000 * 2 ^ 1074) ∧
    (performSecureTransfer (withTotals (sampleState 20000 0 0) 0 10000) 1 twoToMinus50
      (sampleEnv 5)).1 = SUCCESS ∧
    (performSecureTransfer (withTotals (sampleState 20000 0 0) 0 10000) 1 twoToMinus50
      (sampleEnv 5)).2.current_session.daily_transfer.toUnits = some (10000 * 2 ^ 1074) ∧
    (runCalls (sampleState 20000 0 0)
      [(Op.transfer 1 10000, sampleEnv 1), (Op.transfer 1 twoToMinus50, sampleEnv 2)]).1 =
        [SUCCESS, SUCCESS] ∧
    (runCalls (sampleState 20000 0 0)
      [(Op.transfer 1 10000, sampleEnv 1),
        (Op.transfer 1 twoToMinus50, sampleEnv 2)]).2.current_session.daily_transfer =
          10000 := by
  decide!

/-- C6, amended: `performSecureTransfer` decides in this order, for every state, target
and amount, every sum, difference and comparison being the one of C on doubles (rounded
to nearest, false on a NaN): it returns `ERROR_DAILY_LIMIT_EXCEEDED` iff
`daily_transfer + amount > 10000`; otherwise it returns `ERROR_INSUFFICIENT_FUNDS` iff
`amount > source.balance - 500`, where the balance is that of the current (source)
account and the target's balance plays no part; otherwise it returns `SUCCESS`,
`daily_transfer` becomes the double `daily_transfer + amount` and `daily_withdrawal` is
unchanged. -/
theorem transfer_decision_order (s : State) (t : Fin MAX_ACCOUNTS) (amount : Double)
    (env : Env) :
    ((performSecureTransfer s t amount env).1 = ERROR_DAILY_LIMIT_EXCEEDED ↔
      s.current_session.daily_transfer + amount > 10000) ∧
    (¬ s.current_session.daily_transfer + amount > 10000 →
      ((performSecureTransfer s t amount env).1 = ERROR_INSUFFICIENT_FUNDS ↔
        amount > (s.accounts s.current_account).balance - 500)) ∧
    (¬ s.current_session.daily_transfer + amount > 10000 →
      ¬ amount > (s.accounts s.current_account).balance - 500 →
      (performSecureTransfer s t amount env).1 = SUCCESS ∧
      (performSecureTransfer s t amount env).2.current_session.daily_transfer =
        s.current_session.daily_transfer + amount ∧
      (performSecureTransfer s t amount env).2.current_session.daily_withdrawal =
        s.current_session.daily_withdrawal) := by
  have e1 : MAX_DAILY_TRANSFER = 10000 := rfl
  have e2 : MIN_BALANCE = 500 := rfl
  refine ⟨?_, ?_, ?_⟩
  · constructor
    · intro hc
      by_contra h1
      rw [← e1] at h1
      by_cases h2 : amount > (s.accounts s.current_account).balance - MIN_BALANCE
      · rw [transfer_short_funds s t amount env h1 h2] at hc
        exact error_codes_ne_success.2.2 hc.symm
      · rw [(transfer_accepted s t amount env h1 h2).1] at hc
        exact error_codes_ne_success.1 hc.symm
    · intro h1
      rw [← e1] at h1
      rw [transfer_over_limit s t amount env h1]
  · intro h1
    rw [← e1] at h1
    constructor
    · intro hc
      by_contra h2
      rw [← e2] at h2
      rw [(transfer_accepted s t amount env h1 h2).1] at hc
      exact error_codes_ne_success.2.1 hc.symm
    · intro h2
      rw [← e2] at h2
      rw [transfer_short_funds s t amount env h1 h2]
  · intro h1 h2
    rw [← e1] at h1
    rw [← e2] at h2
    obtain ⟨h0, _, _, ht, hw⟩ := transfer_accepted s t amount env h1 h2
    exact ⟨h0, ht, hw⟩

/-- C6 amended, at a concrete state: 300 from account 0 (1000) to account 1 is applied,
although the target holds nothing. -/
theorem transfer_decision_order_witness :
    (performSecureTransfer (sampleState 1000 0 0) 1 300 (sampleEnv 5)).1 = SUCCESS ∧
    (performSecureTransfer (sampleState 1000 0 0) 1 300
      (sampleEnv 5)).2.current_session.daily_transfer = 300 ∧
    (performSecureTransfer (sampleState 1000 0 0) 1 300
      (sampleEnv 5)).2.current_session.daily_withdrawal = 0 := by
  have ht : (sampleState 1000 0 0).current_session.daily_transfer = 0 := rfl
  have hw : (sampleState 1000 0 0).current_session.daily_withdrawal = 0 := rfl
  have h1 : ¬ (sampleState 1000 0 0).current_session.daily_transfer + 300 > 10000 := by
    decide!
  have h2 : ¬ (300 : Double) >
      ((sampleState 1000 0 0).accounts (sampleState 1000 0 0).current_account).balance
        - 500 := by
    decide!
  obtain ⟨k0, kt, kw⟩ :=
    (transfer_decision_order (sampleState 1000 0 0) 1 300 (sampleEnv 5)).2.2 h1 h2
  refine ⟨k0, ?_, ?_⟩
  · rw [kt, ht]; decide!
  · rw [kw, hw]

/-- C8, as stated, fails for a transfer of a negative amount: with balances 1000, 0, 0
(all non-negative), transferring -100 from account 0 to account 1 returns `SUCCESS` and
leaves account 1 with balance -100.  It fails for a withdrawal too: a withdrawal of a
NaN returns `SUCCESS` and leaves the balance a NaN, and so does a withdrawal of plus
infinity from the balances (infinity, 0, 0) that a withdrawal of minus infinity
leaves. -/
theorem balances_nonneg_counterexample :
    (∀ i, 0 ≤ ((sampleState 1000 0 0).accounts i).balance) ∧
    (performSecureTransfer (sampleState 1000 0 0) 1 (-100) (sampleEnv 5)).1 = SUCCESS ∧
    ((performSecureTransfer (sampleState 1000 0 0) 1 (-100) (sampleEnv 5)).2.accounts
      1).balance = -100 ∧
    ¬ (∀ i, 0 ≤ ((performSecureTransfer (sampleState 1000 0 0) 1 (-100)
      (sampleEnv 5)).2.accounts i).balance) ∧
    (performSecureWithdrawal (sampleState 1000 0 0) (Double.nan false) (sampleEnv 5)).1 =
      SUCCESS ∧
    ¬ 0 ≤ ((performSecureWithdrawal (sampleState 1000 0 0) (Double.nan false)
      (sampleEnv 5)).2.accounts 0).balance ∧
    (∀ i, 0 ≤ ((performSecureWithdrawal (sampleState 1000 0 0) (Double.inf true)
      (sampleEnv 4)).2.accounts i).balance) ∧
    (performSecureWithdrawal
      (performSecureWithdrawal (sampleState 1000 0 0) (Double.inf true) (sampleEnv 4)).2
      (Double.inf false) (sampleEnv 5)).1 = SUCCESS ∧
    ¬ 0 ≤ ((performSecureWithdrawal
      (performSecureWithdrawal (sampleState 1000 0 0) (Double.inf true) (sampleEnv 4)).2
      (Double.inf false) (sampleEnv 5)).2.accounts 0).balance := by
  decide!

/-- C8, amended: if every account's balance is non-negative before the call and the
balance of the current account is a binary64 value, then after
`performSecureWithdrawal` with any finite amount (neither a NaN nor an infinity), and
after `performSecureTransfer` with any target and any finite amount that is not
negative, every account's balance (source, target and bystanders) is still
non-negative. -/
theorem balances_stay_nonneg (s : State) (t : Fin MAX_ACCOUNTS) (amount : Double) (env : Env)
    (h0 : ∀ i, 0 ≤ (s.accounts i).balance)
    (h64 : (s.accounts s.current_account).balance.isBinary64 = true)
    (hfin : amount.isFinite = true) :
    (∀ i, 0 ≤ ((performSecureWithdrawal s amount env).2.accounts i).balance) ∧
    (0 ≤ amount →
      ∀ i, 0 ≤ ((performSecureTransfer s t amount env).2.accounts i).balance) := by
  constructor
  · intro i
    by_cases h1 : s.current_session.daily_withdrawal + amount > MAX_DAILY_WITHDRAWAL
    · rw [withdrawal_over_limit s amount env h1]; exact h0 i
    · by_cases h2 : amount > (s.accounts s.current_account).balance - MIN_BALANCE
      · rw [withdrawal_short_funds s amount env h1 h2]; exact h0 i
      · obtain ⟨_, _, hb, _, _⟩ := withdrawal_accepted s amount env h1 h2
        rw [hb]
        by_cases hi : i = s.current_account
        · rw [if_pos hi, hi]
          exact Double.debit_nonneg _ _ _ _ _ MIN_BALANCE_eq (h0 _) h64 hfin h2
        · rw [if_neg hi]; exact h0 i
  · intro hpos i
    by_cases h1 : s.current_session.daily_transfer + amount > MAX_DAILY_TRANSFER
    · rw [transfer_over_limit s t amount env h1]; exact h0 i
    · by_cases h2 : amount > (s.accounts s.current_account).balance - MIN_BALANCE
      · rw [transfer_short_funds s t amount env h1 h2]; exact h0 i
      · obtain ⟨_, _, hb, _, _⟩ := transfer_accepted s t amount env h1 h2
        rw [hb]
        have h5 : 0 ≤ (s.accounts s.current_account).balance - amount :=
          Double.debit_nonneg _ _ _ _ _ MIN_BALANCE_eq (h0 _) h64 hfin h2
        by_cases hi : i = s.current_account
        · simp only [balanceAfterTransfer, if_pos hi]
          rw [hi]
          split_ifs
          · exact Double.add_nonneg _ _ h5 hpos
          · exact h5
        · simp only [balanceAfterTransfer, if_neg hi]
          split_ifs
          · exact Double.add_nonneg _ _ (h0 i) hpos
          · exact h0 i

/-- C8 amended, at a concrete state: balances 1000, 0, 0; withdrawing 200 and
transferring 300 to account 1 both leave every balance non-negative. -/
theorem balances_stay_nonneg_witness :
    (∀ i, 0 ≤ ((performSecureWithdrawal (sampleState 1000 0 0) 200
      (sampleEnv 5)).2.accounts i).balance) ∧
    (∀ i, 0 ≤ ((performSecureTransfer (sampleState 1000 0 0) 1 300
      (sampleEnv 5)).2.accounts i).balance) := by
  have h0 : ∀ i, 0 ≤ ((sampleState 1000 0 0).accounts i).balance := by decide!
  have h64 : ((sampleState 1000 0 0).accounts
      (sampleState 1000 0 0).current_account).balance.isBinary64 = true := by
    decide!
  exact ⟨(balances_stay_nonneg (sampleState 1000 0 0) 1 200 (sampleEnv 5) h0 h64
      (by decide!)).1,
    (balances_stay_nonneg (sampleState 1000 0 0) 1 300 (sampleEnv 5) h0 h64
      (by decide!)).2 (by decide!)⟩

/-! ## Amount validation -/

theorem MAX_TRANSACTION_AMOUNT_eq :
    MAX_TRANSACTION_AMOUNT = Double.fin false 6871947673600000 1037 := by decide!

theorem MAX_DAILY_WITHDRAWAL_eq :
    MAX_DAILY_WITHDRAWAL = Double.fin false 5497558138880000 1034 := by decide!

theorem MAX_DAILY_TRANSFER_eq :
    MAX_DAILY_TRANSFER = Double.fin false 5497558138880000 1035 := by decide!

/-- C9, as stated, fails: a withdrawal of -100 (a non-positive amount) from a balance of
1000 returns `SUCCESS`, not `ERROR_INVALID_INPUT`, and raises the balance to 1100; a
withdrawal of 60000 (above `MAX_TRANSACTION_AMOUNT`) returns
`ERROR_DAILY_LIMIT_EXCEEDED`, not `ERROR_INVALID_INPUT`. -/
theorem amount_validation_counterexample :
    (performSecureWithdrawal (sampleState 1000 0 0) (-100) (sampleEnv 5)).1 = SUCCESS ∧
    (performSecureWithdrawal (sampleState 1000 0 0) (-100) (sampleEnv 5)).1 ≠
      ERROR_INVALID_INPUT ∧
    ((performSecureWithdrawal (sampleState 1000 0 0) (-100) (sampleEnv 5)).2.accounts
      0).balance = 1100 ∧
    (60000 : Double) > MAX_TRANSACTION_AMOUNT ∧
    (performSecureWithdrawal (sampleState 1000 0 0) 60000 (sampleEnv 5)).1 ≠
      ERROR_INVALID_INPUT := by
  decide!

/-- C9, amended: `performSecureWithdrawal` and `performSecureTransfer` never return
`ERROR_INVALID_INPUT`.  An amount above `MAX_TRANSACTION_AMOUNT` (50000) is rejected
with `ERROR_DAILY_LIMIT_EXCEEDED`, and nothing changes, whenever the cumulative total
the call adds to is not negative. -/
theorem amount_never_invalid_input (s : State) (t : Fin MAX_ACCOUNTS) (amount : Double)
    (env : Env) :
    (performSecureWithdrawal s amount env).1 ≠ ERROR_INVALID_INPUT ∧
    (performSecureTransfer s t amount env).1 ≠ ERROR_INVALID_INPUT ∧
    (amount > MAX_TRANSACTION_AMOUNT → 0 ≤ s.current_session.daily_withdrawal →
      performSecureWithdrawal s amount env = (ERROR_DAILY_LIMIT_EXCEEDED, s)) ∧
    (amount > MAX_TRANSACTION_AMOUNT → 0 ≤ s.current_session.daily_transfer →
      performSecureTransfer s t amount env = (ERROR_DAILY_LIMIT_EXCEEDED, s)) := by
  refine ⟨?_, ?_, ?_, ?_⟩
  · rcases withdrawal_code_cases s amount env with h | h | h <;> rw [h] <;> decide
  · rcases transfer_code_cases s t amount env with h | h | h <;> rw [h] <;> decide
  · intro ha hd
    apply withdrawal_over_limit
    rw [MAX_TRANSACTION_AMOUNT_eq] at ha
    rw [MAX_DAILY_WITHDRAWAL_eq]
    exact Double.add_gt _ _ _ _ _ _ (by norm_num) (by norm_num) ha hd
  · intro ha hd
    apply transfer_over_limit
    rw [MAX_TRANSACTION_AMOUNT_eq] at ha
    rw [MAX_DAILY_TRANSFER_eq]
    exact Double.add_gt _ _ _ _ _ _ (by norm_num) (by norm_num) ha hd

/-- C9 amended, at a concrete state: 60000 in a fresh session is turned down by the
daily limit for both operations. -/
theorem amount_never_invalid_input_witness :
    performSecureWithdrawal (sampleState 1000 0 0) 60000 (sampleEnv 5) =
      (ERROR_DAILY_LIMIT_EXCEEDED, sampleState 1000 0 0) ∧
    performSecureTransfer (sampleState 1000 0 0) 1 60000 (sampleEnv 5) =
      (ERROR_DAILY_LIMIT_EXCEEDED, sampleState 1000 0 0) := by
  have ha : (60000 : Double) > MAX_TRANSACTION_AMOUNT := by decide!
  have hd : (0 : Double) ≤ (sampleState 1000 0 0).current_session.daily_withdrawal := by
    decide!
  have ht : (0 : Double) ≤ (sampleState 1000 0 0).current_session.daily_transfer := by
    decide!
  exact ⟨(amount_never_invalid_input (sampleState 1000 0 0) 1 60000 (sampleEnv 5)).2.2.1
      ha hd,
    (amount_never_invalid_input (sampleState 1000 0 0) 1 60000 (sampleEnv 5)).2.2.2 ha ht⟩

/-! ## Session validity -/

/-- C10: for every session record and every current time `now`, `isSessionValid` returns
true iff `is_active` is true and `now - last_activity <= 300` and
`transaction_count < 5`.  Boundaries: exactly 300 seconds idle is valid, 301 is invalid,
`transaction_count` 4 is valid, 5 is invalid.  The function only reads the session: it
returns the flag and has no state to hand back. -/
theorem isSessionValid_iff (s : State) (now : Int) :
    (isSessionValid s now = true ↔
      s.current_session.is_active = true ∧
      now - s.current_session.last_activity ≤ 300 ∧
      s.current_session.transaction_count < 5) ∧
    (s.current_session.is_active = true → s.current_session.transaction_count < 5 →
      (now - s.current_session.last_activity = 300 → isSessionValid s now = true) ∧
      (now - s.current_session.last_activity = 301 → isSessionValid s now = false)) ∧
    (s.current_session.is_active = true → now - s.current_session.last_activity ≤ 300 →
      (s.current_session.transaction_count = 4 → isSessionValid s now = true) ∧
      (s.current_session.transaction_count = 5 → isSessionValid s now = false)) := by
  have key : isSessionValid s now = true ↔
      s.current_session.is_active = true ∧
      now - s.current_session.last_activity ≤ 300 ∧
      s.current_session.transaction_count < 5 := by
    unfold isSessionValid SESSION_TIMEOUT_SECONDS MAX_TRANSACTIONS_PER_SESSION
    cases hact : s.current_session.is_active <;> simp
  have keyf : ∀ b : Bool, (b = true ↔
      s.current_session.is_active = true ∧
      now - s.current_session.last_activity ≤ 300 ∧
      s.current_session.transaction_count < 5) →
      ¬ (s.current_session.is_active = true ∧
      now - s.current_session.last_activity ≤ 300 ∧
      s.current_session.transaction_count < 5) → b = false := by
    intro b hb hn
    cases b
    · rfl
    · exact absurd (hb.mp rfl) hn
  refine ⟨key, ?_, ?_⟩
  · intro ha hc
    constructor
    · intro hi
      exact key.mpr ⟨ha, by omega, hc⟩
    · intro hi
      exact keyf _ key (fun h => by omega)
  · intro ha hi
    constructor
    · intro hc
      exact key.mpr ⟨ha, hi, by omega⟩
    · intro hc
      exact keyf _ key (fun h => by omega)

/-- C10, at a concrete session: opened at time 1000 with no transaction yet, it is valid
at time 1300 and invalid at time 1301. -/
theorem isSessionValid_iff_witness :
    isSessionValid
      { accounts := (sampleState 0 0 0).accounts
        current_session := sampleSession 1000
        current_account := 0 } 1300 = true ∧
    isSessionValid
      { accounts := (sampleState 0 0 0).accounts
        current_session := sampleSession 1000
        current_account := 0 } 1301 = false := by
  constructor
  · exact ((isSessionValid_iff
      { accounts := (sampleState 0 0 0).accounts
        current_session := sampleSession 1000
        current_account := 0 } 1300).2.1 rfl (by decide)).1 (by decide)
  · exact ((isSessionValid_iff
      { accounts := (sampleState 0 0 0).accounts
        current_session := sampleSession 1000
        current_account := 0 } 1301).2.1 rfl (by decide)).2 (by decide)

/-! ## Session checks are left to the caller -/

theorem logTransaction_session_count (s : State) (ty : List Char) (a : Double)
    (d : List Char) (env : Env) :
    (logTransaction s ty a d env).current_session.transaction_count =
      wrapInt (s.current_session.transaction_count + 1) := rfl

theorem logTransaction_last_activity (s : State) (ty : List Char) (a : Double)
    (d : List Char) (env : Env) :
    (logTransaction s ty a d env).current_session.last_activity =
      s.current_session.last_activity := rfl

/-- The session counter and time stamp after a withdrawal. -/
theorem withdrawal_session_fields (s : State) (amount : Double) (env : Env) :
    (performSecureWithdrawal s amount env).2.current_session.transaction_count =
      (if (performSecureWithdrawal s amount env).1 = SUCCESS then
        wrapInt (s.current_session.transaction_count + 1)
      else s.current_session.transaction_count) ∧
    (performSecureWithdrawal s amount env).2.current_session.last_activity =
      s.current_session.last_activity := by
  unfold performSecureWithdrawal
  split_ifs with h1 h2 h3 h4 h5
  · exact absurd h2 error_codes_ne_success.1
  · exact ⟨rfl, rfl⟩
  · exact absurd h4 error_codes_ne_success.2.1
  · exact ⟨rfl, rfl⟩
  · exact ⟨rfl, rfl⟩
  · exact absurd rfl h5

/-- The session counter and time stamp after a transfer. -/
theorem transfer_session_fields (s : State) (t : Fin MAX_ACCOUNTS) (amount : Double)
    (env : Env) :
    (performSecureTransfer s t amount env).2.current_session.transaction_count =
      (if (performSecureTransfer s t amount env).1 = SUCCESS then
        wrapInt (s.current_session.transaction_count + 1)
      else s.current_session.transaction_count) ∧
    (performSecureTransfer s t amount env).2.current_session.last_activity =
      s.current_session.last_activity := by
  unfold performSecureTransfer
  split_ifs with h1 h2 h3 h4 h5
  · exact absurd h2 error_codes_ne_success.1
  · exact ⟨rfl, rfl⟩
  · exact absurd h4 error_codes_ne_success.2.1
  · exact ⟨rfl, rfl⟩
  · exact ⟨rfl, rfl⟩
  · exact absurd rfl h5

/-- C11, as stated, fails: in a session that is not active (so `isSessionValid` is
false at every time), a withdrawal of 200 from a balance of 1000 returns `SUCCESS`, not
`ERROR_SESSION_TIMEOUT`, and the balance drops to 800. -/
theorem invalid_session_counterexample :
    (∀ now, isSessionValid (withSessionFields (sampleState 1000 0 0) false 0 0) now = false) ∧
    (performSecureWithdrawal (withSessionFields (sampleState 1000 0 0) false 0 0) 200
      (sampleEnv 5)).1 = SUCCESS ∧
    (performSecureWithdrawal (withSessionFields (sampleState 1000 0 0) false 0 0) 200
      (sampleEnv 5)).1 ≠ ERROR_SESSION_TIMEOUT ∧
    ((performSecureWithdrawal (withSessionFields (sampleState 1000 0 0) false 0 0) 200
      (sampleEnv 5)).2.accounts 0).balance = 800 := by
  exact ⟨fun now => rfl, by decide!, by decide!, by decide!⟩

/-- C11, amended: `performSecureWithdrawal` and `performSecureTransfer` do not look at
the validity of the session.  For every state, amount and target they never return
`ERROR_SESSION_TIMEOUT`, and their return code and the balances they leave are the same
whatever values `is_active`, `last_activity` and `transaction_count` have. -/
theorem session_validity_not_consulted (s : State) (t : Fin MAX_ACCOUNTS) (amount : Double)
    (env : Env) (active : Bool) (last count : Int) :
    (performSecureWithdrawal s amount env).1 ≠ ERROR_SESSION_TIMEOUT ∧
    (performSecureTransfer s t amount env).1 ≠ ERROR_SESSION_TIMEOUT ∧
    (performSecureWithdrawal (withSessionFields s active last count) amount env).1 =
      (performSecureWithdrawal s amount env).1 ∧
    (performSecureTransfer (withSessionFields s active last count) t amount env).1 =
      (performSecureTransfer s t amount env).1 ∧
    (∀ i, ((performSecureWithdrawal (withSessionFields s active last count) amount
        env).2.accounts i).balance =
      ((performSecureWithdrawal s amount env).2.accounts i).balance) ∧
    (∀ i, ((performSecureTransfer (withSessionFields s active last count) t amount
        env).2.accounts i).balance =
      ((performSecureTransfer s t amount env).2.accounts i).balance) := by
  refine ⟨?_, ?_, ?_, ?_, ?_, ?_⟩
  · rcases withdrawal_code_cases s amount env with h | h | h <;> rw [h] <;> decide
  · rcases transfer_code_cases s t amount env with h | h | h <;> rw [h] <;> decide
  · unfold performSecureWithdrawal
    show (if s.current_session.daily_withdrawal + amount > MAX_DAILY_WITHDRAWAL then _
      else if amount > (s.accounts s.current_account).balance - MIN_BALANCE then _
      else _ : Int × State).1 = _
    split_ifs <;> rfl
  · unfold performSecureTransfer
    show (if s.current_session.daily_transfer + amount > MAX_DAILY_TRANSFER then _
      else if amount > (s.accounts s.current_account).balance - MIN_BALANCE then _
      else _ : Int × State).1 = _
    split_ifs <;> rfl
  · intro i
    by_cases h1 : s.current_session.daily_withdrawal + amount > MAX_DAILY_WITHDRAWAL
    · rw [withdrawal_over_limit s amount env h1,
        withdrawal_over_limit (withSessionFields s active last count) amount env h1]
      rfl
    · by_cases h2 : amount > (s.accounts s.current_account).balance - MIN_BALANCE
      · rw [withdrawal_short_funds s amount env h1 h2,
          withdrawal_short_funds (withSessionFields s active last count) amount env h1 h2]
        rfl
      · rw [(withdrawal_accepted s amount env h1 h2).2.2.1 i,
          (withdrawal_accepted (withSessionFields s active last count) amount env
            h1 h2).2.2.1 i]
        rfl
  · intro i
    by_cases h1 : s.current_session.daily_transfer + amount > MAX_DAILY_TRANSFER
    · rw [transfer_over_limit s t amount env h1,
        transfer_over_limit (withSessionFields s active last count) t amount env h1]
      rfl
    · by_cases h2 : amount > (s.accounts s.current_account).balance - MIN_BALANCE
      · rw [transfer_short_funds s t amount env h1 h2,
          transfer_short_funds (withSessionFields s active last count) t amount env h1 h2]
        rfl
      · rw [(transfer_accepted s t amount env h1 h2).2.2.1 i,
          (transfer_accepted (withSessionFields s active last count) t amount env
            h1 h2).2.2.1 i]
        rfl

/-! ## Per-session quota -/

theorem wrapInt_of_range (z : Int) (h1 : -2147483648 ≤ z) (h2 : z < 2147483648) :
    wrapInt z = z := by
  unfold wrapInt
  omega

theorem wrapInt_range (z : Int) : -2147483648 ≤ wrapInt z ∧ wrapInt z < 2147483648 := by
  unfold wrapInt
  omega

theorem wrapInt_add (a b : Int) : wrapInt (wrapInt a + b) = wrapInt (a + b) := by
  unfold wrapInt
  omega

/-- A valid session has not reached its transaction quota. -/
theorem isSessionValid_count_lt (s : State) (now : Int)
    (h : isSessionValid s now = true) : s.current_session.transaction_count < 5 := by
  unfold isSessionValid MAX_TRANSACTIONS_PER_SESSION at h
  by_contra hc
  have h5 : (5 : Int) ≤ s.current_session.transaction_count := not_lt.mp hc
  simp [h5] at h

/-- One call increments the session counter, as a C `int`, when it succeeds and leaves
it alone otherwise. -/
theorem step_session_count (s : State) (c : Op × Env) :
    (step s c).2.current_session.transaction_count =
      (if (step s c).1 = SUCCESS then wrapInt (s.current_session.transaction_count + 1)
      else s.current_session.transaction_count) := by
  obtain ⟨op, env⟩ := c
  cases op with
  | withdraw amount => exact (withdrawal_session_fields s amount env).1
  | transfer t amount => exact (transfer_session_fields s t amount env).1

/-- After a sequence of calls the session counter has grown, as a C `int`, by the number
of calls that returned `SUCCESS`. -/
theorem runCalls_session_count (calls : List (Op × Env)) :
    ∀ s : State, wrapInt (runCalls s calls).2.current_session.transaction_count =
      wrapInt (s.current_session.transaction_count +
        ((runCalls s calls).1.count SUCCESS : Int)) := by
  induction calls with
  | nil => intro s; simp [runCalls]
  | cons c cs ih =>
    intro s
    show wrapInt (runCalls (step s c).2 cs).2.current_session.transaction_count =
      wrapInt (s.current_session.transaction_count +
        ((((step s c).1 :: (runCalls (step s c).2 cs).1).count SUCCESS : Nat) : Int))
    rw [ih (step s c).2, step_session_count s c, List.count_cons]
    by_cases h : (step s c).1 = SUCCESS
    · simp only [h, if_true, beq_self_eq_true]
      rw [wrapInt_add]
      congr 1
      push_cast
      ring
    · simp [h]

/-- A sequence of calls leaves the session counter a C `int` when it was one. -/
theorem runCalls_session_count_range (calls : List (Op × Env)) :
    ∀ s : State, wrapInt s.current_session.transaction_count =
        s.current_session.transaction_count →
      wrapInt (runCalls s calls).2.current_session.transaction_count =
        (runCalls s calls).2.current_session.transaction_count := by
  induction calls with
  | nil => intro s h; exact h
  | cons c cs ih =>
    intro s h
    show wrapInt (runCalls (step s c).2 cs).2.current_session.transaction_count =
      (runCalls (step s c).2 cs).2.current_session.transaction_count
    apply ih
    rw [step_session_count s c]
    split_ifs
    · exact wrapInt_of_range _ (wrapInt_range _).1 (wrapInt_range _).2
    · exact h

/-- Calls made only while the session is valid keep the counter between 0 and 5. -/
theorem runCalls_quota (calls : List (Op × Env)) :
    ∀ s : State, 0 ≤ s.current_session.transaction_count →
      s.current_session.transaction_count ≤ 5 →
      calledWhileValid s calls = true →
      (runCalls s calls).2.current_session.transaction_count ≤ 5 := by
  induction calls with
  | nil => intro s _ h _; exact h
  | cons c cs ih =>
    intro s h0 _ hv
    have hv2 : isSessionValid s c.2.now = true ∧ calledWhileValid (step s c).2 cs = true := by
      simpa [calledWhileValid] using hv
    have hlt := isSessionValid_count_lt s c.2.now hv2.1
    have hstep := step_session_count s c
    have hw : wrapInt (s.current_session.transaction_count + 1) =
        s.current_session.transaction_count + 1 :=
      wrapInt_of_range _ (by omega) (by omega)
    have hle : 0 ≤ (step s c).2.current_session.transaction_count ∧
        (step s c).2.current_session.transaction_count ≤ 5 := by
      rw [hstep]
      split_ifs
      · rw [hw]; omega
      · omega
    exact ih (step s c).2 hle.1 hle.2 hv2.2

/-- C12, as stated, fails: from a fresh session (`transaction_count = 0`) on an account
holding 10000, six withdrawals of 100 all return `SUCCESS` and leave the session's
`transaction_count` at 6. -/
theorem session_quota_counterexample :
    (sampleState 10000 0 0).current_session.transaction_count = 0 ∧
    (runCalls (sampleState 10000 0 0)
      [(Op.withdraw 100, sampleEnv 1), (Op.withdraw 100, sampleEnv 2),
        (Op.withdraw 100, sampleEnv 3), (Op.withdraw 100, sampleEnv 4),
        (Op.withdraw 100, sampleEnv 5),
        (Op.withdraw 100, sampleEnv 6)]).2.current_session.transaction_count = 6 ∧
    ¬ (runCalls (sampleState 10000 0 0)
      [(Op.withdraw 100, sampleEnv 1), (Op.withdraw 100, sampleEnv 2),
        (Op.withdraw 100, sampleEnv 3), (Op.withdraw 100, sampleEnv 4),
        (Op.withdraw 100, sampleEnv 5),
        (Op.withdraw 100, sampleEnv 6)]).2.current_session.transaction_count
      ≤ MAX_TRANSACTIONS_PER_SESSION := by
  decide!

/-- C12, amended: starting from a session with `transaction_count = 0`, after any finite
sequence of `performSecureWithdrawal` and `performSecureTransfer` calls, each made while
`isSessionValid` holds, the session's `transaction_count` is at most
`MAX_TRANSACTIONS_PER_SESSION` (5).  Without that condition the count after the sequence
is the number of calls that returned `SUCCESS`, as a C `int`: that number itself for a
sequence of at most `INT_MAX` calls, and wrapped around beyond. -/
theorem session_quota_when_valid (s : State) (calls : List (Op × Env))
    (h0 : s.current_session.transaction_count = 0) :
    (calledWhileValid s calls = true →
      (runCalls s calls).2.current_session.transaction_count ≤
        MAX_TRANSACTIONS_PER_SESSION) ∧
    MAX_TRANSACTIONS_PER_SESSION = 5 ∧
    (runCalls s calls).2.current_session.transaction_count =
      wrapInt ((runCalls s calls).1.count SUCCESS : Int) ∧
    ((calls.length : Int) ≤ INT_MAX →
      (runCalls s calls).2.current_session.transaction_count =
        ((runCalls s calls).1.count SUCCESS : Int)) := by
  have hr : wrapInt s.current_session.transaction_count =
      s.current_session.transaction_count := by rw [h0]; rfl
  have key : (runCalls s calls).2.current_session.transaction_count =
      wrapInt ((runCalls s calls).1.count SUCCESS : Int) := by
    rw [← runCalls_session_count_range calls s hr, runCalls_session_count calls s, h0,
      zero_add]
  refine ⟨?_, rfl, key, ?_⟩
  · intro hv
    exact runCalls_quota calls s (by rw [h0]) (by rw [h0]; decide) hv
  · intro hlen
    rw [key]
    have hlen2 : (runCalls s calls).1.length = calls.length := by
      clear hlen key hr h0
      induction calls generalizing s with
      | nil => rfl
      | cons c cs ih =>
        show ((step s c).1 :: (runCalls (step s c).2 cs).1).length = (c :: cs).length
        simp only [List.length_cons]
        rw [ih]
    have hc : (runCalls s calls).1.count SUCCESS ≤ calls.length := by
      rw [← hlen2]; exact List.count_le_length _ _
    unfold INT_MAX at hlen
    exact wrapInt_of_range _ (by omega) (by omega)

/-- C12 amended, at a concrete run: two withdrawals of 100 at times 1 and 2 in a fresh
session opened at time 0. -/
theorem session_quota_when_valid_witness :
    calledWhileValid (sampleState 10000 0 0)
      [(Op.withdraw 100, sampleEnv 1), (Op.withdraw 100, sampleEnv 2)] = true ∧
    (runCalls (sampleState 10000 0 0)
      [(Op.withdraw 100, sampleEnv 1),
        (Op.withdraw 100, sampleEnv 2)]).2.current_session.transaction_count ≤ 5 := by
  have hv : calledWhileValid (sampleState 10000 0 0)
      [(Op.withdraw 100, sampleEnv 1), (Op.withdraw 100, sampleEnv 2)] = true := by
    decide!
  exact ⟨hv, (session_quota_when_valid (sampleState 10000 0 0)
    [(Op.withdraw 100, sampleEnv 1), (Op.withdraw 100, sampleEnv 2)] rfl).1 hv⟩

/-! ## Input hygiene: sanitising -/

theorem getD_at_length (pre post : List Char) (c d : Char) :
    (pre ++ c :: post).getD pre.length d = c := by
  induction pre with
  | nil => rfl
  | cons x xs ih => simpa using ih

theorem set_at_length (pre post : List Char) (c d : Char) :
    (pre ++ c :: post).set pre.length d = pre ++ d :: post := by
  induction pre with
  | nil => rfl
  | cons x xs ih => simp

theorem cString_append_NUL (out post : List Char) (h : ∀ c ∈ out, c ≠ NUL) :
    cString (out ++ NUL :: post) = out := by
  induction out with
  | nil => simp [cString]
  | cons x xs ih =>
    have hx : x ≠ NUL := h x (List.mem_cons_self _ _)
    have := ih (fun c hc => h c (List.mem_cons_of_mem _ hc))
    simp only [cString] at this ⊢
    simp [List.takeWhile_cons, hx, this]

theorem sanitizeLoop_inv (rem : List Char) :
    ∀ (fuel : Nat) (out junk rest : List Char),
      (∀ c ∈ rem, c ≠ NUL) → rem.length < fuel →
      ∃ post, sanitizeLoop fuel (out ++ junk ++ rem ++ NUL :: rest)
          (out.length + junk.length) out.length =
        out ++ rem.filter keepChar ++ NUL :: post := by
  induction rem with
  | nil =>
    intro fuel out junk rest _ hf
    obtain ⟨f, rfl⟩ : ∃ f, fuel = f + 1 := ⟨fuel - 1, by simp at hf; omega⟩
    have hmem : out ++ junk ++ [] ++ NUL :: rest = (out ++ junk) ++ NUL :: rest := by simp
    have hsrc : out.length + junk.length = (out ++ junk).length := by simp
    rw [hmem, hsrc]
    unfold sanitizeLoop
    rw [getD_at_length, if_pos rfl]
    cases junk with
    | nil =>
      refine ⟨rest, ?_⟩
      simp only [List.append_nil, List.filter_nil]
      exact set_at_length out rest NUL NUL
    | cons j js =>
      refine ⟨js ++ NUL :: rest, ?_⟩
      have h2 : (out ++ j :: js) ++ NUL :: rest = out ++ j :: (js ++ NUL :: rest) := by simp
      rw [h2, set_at_length]
      simp
  | cons c rem' ih =>
    intro fuel out junk rest hrem hf
    obtain ⟨f, rfl⟩ : ∃ f, fuel = f + 1 := ⟨fuel - 1, by simp at hf; omega⟩
    have hc : c ≠ NUL := hrem c (List.mem_cons_self _ _)
    have hrem' : ∀ x ∈ rem', x ≠ NUL := fun x hx => hrem x (List.mem_cons_of_mem _ hx)
    have hf' : rem'.length < f := by simp at hf; omega
    have hmem : out ++ junk ++ c :: rem' ++ NUL :: rest =
        (out ++ junk) ++ c :: (rem' ++ NUL :: rest) := by simp
    have hsrc : out.length + junk.length = (out ++ junk).length := by simp
    rw [hmem, hsrc]
    unfold sanitizeLoop
    rw [getD_at_length, if_neg hc]
    by_cases hk : keepChar c = true
    · rw [if_pos hk]
      cases junk with
      | nil =>
        obtain ⟨post, hp⟩ := ih f (out ++ [c]) [] rest hrem' hf'
        refine ⟨post, ?_⟩
        have e1 : ((out ++ []) ++ c :: (rem' ++ NUL :: rest)).set out.length c =
            (out ++ [c]) ++ [] ++ rem' ++ NUL :: rest := by
          simp only [List.append_nil]
          rw [set_at_length]
          simp
        have e2 : (out ++ ([] : List Char)).length + 1 =
            (out ++ [c]).length + ([] : List Char).length := by simp
        have e3 : out.length + 1 = (out ++ [c]).length := by simp
        rw [e1, e2, e3, hp]
        simp [List.filter_cons, hk]
      | cons j js =>
        obtain ⟨post, hp⟩ := ih f (out ++ [c]) (js ++ [c]) rest hrem' hf'
        refine ⟨post, ?_⟩
        have e1 : ((out ++ j :: js) ++ c :: (rem' ++ NUL :: rest)).set out.length c =
            (out ++ [c]) ++ (js ++ [c]) ++ rem' ++ NUL :: rest := by
          have : (out ++ j :: js) ++ c :: (rem' ++ NUL :: rest) =
              out ++ j :: (js ++ c :: (rem' ++ NUL :: rest)) := by simp
          rw [this, set_at_length]
          simp
        have e2 : (out ++ j :: js).length + 1 =
            (out ++ [c]).length + (js ++ [c]).length := by simp; omega
        have e3 : out.length + 1 = (out ++ [c]).length := by simp
        rw [e1, e2, e3, hp]
        simp [List.filter_cons, hk]
    · rw [if_neg hk]
      obtain ⟨post, hp⟩ := ih f out (junk ++ [c]) rest hrem' hf'
      refine ⟨post, ?_⟩
      have e1 : (out ++ junk) ++ c :: (rem' ++ NUL :: rest) =
          out ++ (junk ++ [c]) ++ rem' ++ NUL :: rest := by simp
      have e2 : (out ++ junk).length + 1 = out.length + (junk ++ [c]).length := by
        simp; omega
      rw [e1, e2, hp]
      simp [List.filter_cons, hk]

theorem keepChar_eq_isPermittedChar : keepChar = isPermittedChar := by
  funext c
  rfl

/-- C13: `sanitizeInput` maps every input string (the characters of the buffer before its
terminator) to exactly the subsequence of its characters that are alphanumeric, space,
period or hyphen, in their original order: the string the buffer holds afterwards is
`List.filter` of that predicate over the input.  Every kept character is inside the set
and every removed character is outside it. -/
theorem sanitizeInput_eq_filter (input rest : List Char) (h : ∀ c ∈ input, c ≠ NUL) :
    cString (input ++ NUL :: rest) = input ∧
    cString (sanitizeInput (input ++ NUL :: rest)) = sanitizeSpec input ∧
    List.Sublist (cString (sanitizeInput (input ++ NUL :: rest))) input ∧
    (∀ c ∈ cString (sanitizeInput (input ++ NUL :: rest)), isPermittedChar c = true) ∧
    (∀ c ∈ input, c ∉ cString (sanitizeInput (input ++ NUL :: rest)) →
      isPermittedChar c = false) := by
  have key : cString (sanitizeInput (input ++ NUL :: rest)) = sanitizeSpec input := by
    obtain ⟨post, hp⟩ := sanitizeLoop_inv input ((input ++ NUL :: rest).length + 1) [] []
      rest h (by simp; omega)
    have hmem : ([] : List Char) ++ [] ++ input ++ NUL :: rest = input ++ NUL :: rest := by
      simp
    rw [hmem] at hp
    unfold sanitizeInput
    have hp2 : sanitizeLoop ((input ++ NUL :: rest).length + 1) (input ++ NUL :: rest) 0 0 =
        input.filter keepChar ++ NUL :: post := by
      simpa using hp
    rw [hp2, sanitizeSpec, ← keepChar_eq_isPermittedChar]
    apply cString_append_NUL
    intro c hc
    exact h c (List.mem_of_mem_filter hc)
  refine ⟨cString_append_NUL input rest h, key, ?_, ?_, ?_⟩
  · rw [key]; exact List.filter_sublist input
  · intro c hc
    rw [key] at hc
    exact (List.mem_filter.mp hc).2
  · intro c hc hn
    rw [key] at hn
    by_contra hk
    exact hn (List.mem_filter.mpr ⟨hc, by simpa using hk⟩)

/-- C13, at the example of the specification: `Pay$ John-Doe#99.` becomes
`Pay John-Doe99.`. -/
theorem sanitizeInput_eq_filter_witness :
    cString (sanitizeInput ("Pay$ John-Doe#99.".toList ++ [NUL])) =
      "Pay John-Doe99.".toList := by
  have h : ∀ c ∈ "Pay$ John-Doe#99.".toList, c ≠ NUL := by decide
  rw [(sanitizeInput_eq_filter "Pay$ John-Doe#99.".toList [] h).2.1]
  decide

/-! ## Input hygiene: format validation -/

/-- C14: for every input string, `validateInputFormat(input, "PIN")` returns true iff the
input has exactly 4 characters and every one of them is a decimal digit `0`..`9`; for
every format tag other than `PIN` it returns false for every input. -/
theorem validateInputFormat_PIN_iff (input format : List Char) :
    (validateInputFormat input "PIN".toList = true ↔
      input.length = 4 ∧ ∀ c ∈ input, c.isDigit = true) ∧
    (∀ c : Char, c.isDigit = true ↔ '0'.toNat ≤ c.toNat ∧ c.toNat ≤ '9'.toNat) ∧
    (format ≠ "PIN".toList → validateInputFormat input format = false) := by
  refine ⟨?_, ?_, ?_⟩
  · unfold validateInputFormat PIN_LENGTH
    rw [if_pos rfl]
    by_cases hl : input.length = 4
    · rw [if_neg (not_not.mpr hl)]
      match input, hl with
      | [a, b, c, d], _ =>
        cases ha : a.isDigit <;> cases hb : b.isDigit <;> cases hc : c.isDigit <;>
          cases hd : d.isDigit <;> simp [pinDigitsLoop, ha, hb, hc, hd]
    · rw [if_pos hl]
      simp [hl]
  · intro c
    have e0 : '0'.toNat = 48 := rfl
    have e9 : '9'.toNat = 57 := rfl
    rw [e0, e9]
    simp only [Char.isDigit, Char.toNat, Bool.and_eq_true, decide_eq_true_eq]
    constructor
    · rintro ⟨h1, h2⟩
      exact ⟨h1, h2⟩
    · rintro ⟨h1, h2⟩
      exact ⟨h1, h2⟩
  · intro hf
    unfold validateInputFormat
    rw [if_neg hf]

/-- C14, at concrete inputs: `1234` is a PIN, `12a4` and `12345` are not, and no input is
accepted under the tag `ACCOUNT`. -/
theorem validateInputFormat_PIN_iff_witness :
    validateInputFormat "1234".toList "PIN".toList = true ∧
    validateInputFormat "12a4".toList "PIN".toList = false ∧
    validateInputFormat "12345".toList "PIN".toList = false ∧
    validateInputFormat "1234".toList "ACCOUNT".toList = false := by
  refine ⟨by decide, by decide, by decide, ?_⟩
  exact (validateInputFormat_PIN_iff "1234".toList "ACCOUNT".toList).2.2 (by decide)

/-! ## Ring-buffer history -/

/-- The slot of a count that is not negative. -/
theorem historySlot_natCast (n : Nat) : historySlot (n : Int) = some (slotOf n) := by
  unfold historySlot
  have h : (0 : Int) ≤ Int.tmod (n : Int) 100 := Int.tmod_nonneg _ (Int.natCast_nonneg n)
  rw [dif_pos h]
  rfl

/-- What one `logTransaction` call does to the current account. -/
theorem logTransaction_effect (s : State) (c : LogCall) :
    (logTransaction s c.type c.amount c.details c.env).current_account = s.current_account ∧
    currentCount (logTransaction s c.type c.amount c.details c.env) =
      wrapInt (currentCount s + 1) ∧
    (∀ slot, historySlot (currentCount s) = some slot →
      holdsRecord (currentHistory (logTransaction s c.type c.amount c.details c.env) slot) c ∧
      ∀ i, i ≠ slot →
        currentHistory (logTransaction s c.type c.amount c.details c.env) i =
          currentHistory s i) ∧
    (historySlot (currentCount s) = none →
      currentHistory (logTransaction s c.type c.amount c.details c.env) =
        currentHistory s) := by
  refine ⟨rfl, ?_, ?_, ?_⟩
  · simp [currentCount, logTransaction]
  · intro slot hslot
    unfold currentCount at hslot
    simp only [currentHistory, logTransaction, Function.update_same, hslot, holdsRecord]
    refine ⟨⟨trivial, trivial, trivial, trivial, ?_⟩, ?_⟩
    · intro r hr
      rw [hr]
      rfl
    · intro i hi
      exact Function.update_noteq hi _ _
  · intro hslot
    unfold currentCount at hslot
    simp only [currentHistory, logTransaction, Function.update_same, hslot]

/-- The counter after a sequence of `logTransaction` calls that does not take it past
`INT_MAX`. -/
theorem logAll_count (cs : List LogCall) :
    ∀ (s : State) (n : Nat), currentCount s = n → n + cs.length ≤ 2147483647 →
      (logAll s cs).current_account = s.current_account ∧
      currentCount (logAll s cs) = ((n + cs.length : Nat) : Int) := by
  induction cs with
  | nil => intro s n hn _; exact ⟨rfl, by simpa using hn⟩
  | cons c cs ih =>
    intro s n hn hlen
    obtain ⟨k1, k2, _, _⟩ := logTransaction_effect s c
    have k2b : currentCount (logTransaction s c.type c.amount c.details c.env) =
        ((n + 1 : Nat) : Int) := by
      rw [k2, hn, wrapInt_of_range _ (by omega) (by simp at hlen; omega)]
      norm_cast
    obtain ⟨h1, h2⟩ := ih (logTransaction s c.type c.amount c.details c.env) (n + 1) k2b
      (by simp at hlen; omega)
    refine ⟨by show (logAll _ cs).current_account = _; rw [h1, k1], ?_⟩
    show currentCount (logAll _ cs) = _
    rw [h2, List.length_cons]
    congr 1
    omega

/-- A slot that no call of the sequence writes keeps its record. -/
theorem logAll_untouched (cs : List LogCall) :
    ∀ (s : State) (n : Nat) (i : Fin MAX_TRANSACTION_HISTORY), currentCount s = n →
      n + cs.length ≤ 2147483647 →
      (∀ j, j < cs.length → slotOf (n + j) ≠ i) →
      currentHistory (logAll s cs) i = currentHistory s i := by
  induction cs with
  | nil => intro s n i _ _ _; rfl
  | cons c cs ih =>
    intro s n i hn hlen h
    obtain ⟨_, k2, k3, _⟩ := logTransaction_effect s c
    have k2b : currentCount (logTransaction s c.type c.amount c.details c.env) =
        ((n + 1 : Nat) : Int) := by
      rw [k2, hn, wrapInt_of_range _ (by omega) (by simp at hlen; omega)]
      norm_cast
    have hslot : historySlot (currentCount s) = some (slotOf n) := by
      rw [hn]; exact historySlot_natCast n
    show currentHistory (logAll (logTransaction s c.type c.amount c.details c.env) cs) i = _
    rw [ih (logTransaction s c.type c.amount c.details c.env) (n + 1) i k2b
      (by simp at hlen; omega), (k3 _ hslot).2 i]
    · have := h 0 (by simp)
      simpa using this.symm
    · intro j hj
      have := h (j + 1) (by simp; omega)
      rwa [show n + (j + 1) = n + 1 + j by omega] at this

/-- Two sequence numbers less than 100 apart fall into different slots. -/
theorem slotOf_ne (n j : Nat) (h1 : 0 < j) (h2 : j < 100) : slotOf (n + j) ≠ slotOf n := by
  intro h
  have hv : (n + j) % 100 = n % 100 := congrArg Fin.val h
  omega

/-- The record of call number `j` is still in its slot at the end when fewer than 100
calls follow it. -/
theorem logAll_holds (cs : List LogCall) :
    ∀ (s : State) (n j : Nat) (c : LogCall), currentCount s = n →
      n + cs.length ≤ 2147483647 → cs[j]? = some c → cs.length ≤ j + 100 →
      holdsRecord (currentHistory (logAll s cs) (slotOf (n + j))) c := by
  induction cs with
  | nil => intro s n j c _ _ h; simp at h
  | cons c0 cs ih =>
    intro s n j c hn hmax hj hlen
    obtain ⟨_, k2, k3, _⟩ := logTransaction_effect s c0
    have k2b : currentCount (logTransaction s c0.type c0.amount c0.details c0.env) =
        ((n + 1 : Nat) : Int) := by
      rw [k2, hn, wrapInt_of_range _ (by omega) (by simp at hmax; omega)]
      norm_cast
    have hslot : historySlot (currentCount s) = some (slotOf n) := by
      rw [hn]; exact historySlot_natCast n
    cases j with
    | zero =>
      have hc : c0 = c := by simpa using hj
      subst hc
      show holdsRecord (currentHistory
        (logAll (logTransaction s c0.type c0.amount c0.details c0.env) cs) _) c0
      rw [Nat.add_zero, logAll_untouched cs _ (n + 1) _ k2b (by simp at hmax; omega) ?_]
      · exact (k3 _ hslot).1
      · intro i hi
        rw [show n + 1 + i = n + (i + 1) by omega]
        exact slotOf_ne _ _ (by omega) (by simp at hlen; omega)
    | succ j =>
      have hj2 : cs[j]? = some c := by simpa using hj
      have := ih (logTransaction s c0.type c0.amount c0.details c0.env) (n + 1) j c k2b
        (by simp at hmax; omega) hj2 (by simp at hlen; omega)
      rw [show n + 1 + j = n + (j + 1) by omega] at this
      exact this

/-- C15, as stated, fails at the end of the range of `int`: for an account whose
`transaction_count` is `INT_MAX` (which is `>= 0`), `logTransaction` leaves
`transaction_count` at -2147483648 and not at `INT_MAX + 1`; the index of the next
write, `-2147483648 % 100`, is -48 and names none of the 100 slots. -/
theorem ring_buffer_counterexample :
    0 ≤ currentCount (withAccountCount (sampleState 0 0 0) INT_MAX) ∧
    currentCount (logTransaction (withAccountCount (sampleState 0 0 0) INT_MAX)
      (sampleLog 0).type (sampleLog 0).amount (sampleLog 0).details (sampleLog 0).env) =
      -2147483648 ∧
    currentCount (logTransaction (withAccountCount (sampleState 0 0 0) INT_MAX)
      (sampleLog 0).type (sampleLog 0).amount (sampleLog 0).details (sampleLog 0).env) ≠
      currentCount (withAccountCount (sampleState 0 0 0) INT_MAX) + 1 ∧
    Int.tmod (-2147483648) 100 = -48 ∧
    historySlot (currentCount (logTransaction
      (withAccountCount (sampleState 0 0 0) INT_MAX)
      (sampleLog 0).type (sampleLog 0).amount (sampleLog 0).details (sampleLog 0).env)) =
      none := by
  decide!

/-- C15, amended: for an account whose `transaction_count` is `n` with
`0 <= n < INT_MAX`, `logTransaction` writes the new record into slot `n mod 100`, leaves
the other 99 slots unchanged and sets `transaction_count` to `n + 1` (the record is
written in this way for `n = INT_MAX` too).  Consequently, after `k <= INT_MAX` logged
transactions on an initially empty history, slot `i` holds the latest logged record
whose 0-based sequence number is congruent to `i` mod 100 (and is untouched when there
is none), every write goes to one of the 100 slots, and after 101 recorded transactions
slot 0 holds the 101st record and no longer the 1st. -/
theorem ring_buffer_history (s : State) (c : LogCall) (calls : List LogCall) :
    (0 ≤ currentCount s →
      ∃ slot, historySlot (currentCount s) = some slot ∧
        (slot.val : Int) = currentCount s % 100 ∧
        holdsRecord (currentHistory (logTransaction s c.type c.amount c.details c.env)
          slot) c ∧
        (∀ i, i ≠ slot →
          currentHistory (logTransaction s c.type c.amount c.details c.env) i =
            currentHistory s i)) ∧
    (0 ≤ currentCount s → currentCount s < INT_MAX →
      currentCount (logTransaction s c.type c.amount c.details c.env) =
        currentCount s + 1) ∧
    (∀ n slot, historySlot n = some slot → slot.val < 100) ∧
    (currentCount s = 0 → (calls.length : Int) ≤ INT_MAX →
      currentCount (logAll s calls) = calls.length ∧
      (∀ j cj, calls[j]? = some cj →
        (∀ j2, j2 < calls.length → j2 % 100 = j % 100 → j2 ≤ j) →
        ∃ slot, historySlot (j : Int) = some slot ∧ slot.val = j % 100 ∧
          holdsRecord (currentHistory (logAll s calls) slot) cj) ∧
      (∀ i : Fin MAX_TRANSACTION_HISTORY, (∀ j, j < calls.length → j % 100 ≠ i.val) →
        currentHistory (logAll s calls) i = currentHistory s i)) ∧
    (currentCount s = 0 → calls.length = 101 →
      ∀ c0 c100, calls[0]? = some c0 → calls[100]? = some c100 →
        holdsRecord (currentHistory (logAll s calls) 0) c100 ∧
        (c0.amount ≠ c100.amount → ¬ holdsRecord (currentHistory (logAll s calls) 0) c0)) := by
  obtain ⟨_, k2, k3, _⟩ := logTransaction_effect s c
  refine ⟨?_, ?_, fun n slot _ => slot.isLt, ?_, ?_⟩
  · intro hn
    obtain ⟨n, hn2⟩ := Int.eq_ofNat_of_zero_le hn
    have hslot : historySlot (currentCount s) = some (slotOf n) := by
      rw [hn2]; exact historySlot_natCast n
    refine ⟨slotOf n, hslot, ?_, (k3 _ hslot).1, (k3 _ hslot).2⟩
    rw [hn2]
    show ((n % 100 : Nat) : Int) = (n : Int) % 100
    norm_cast
  · intro hn hmax
    unfold INT_MAX at hmax
    rw [k2, wrapInt_of_range _ (by omega) (by omega)]
  · intro h0 hlen
    unfold INT_MAX at hlen
    have h0n : currentCount s = ((0 : Nat) : Int) := by rw [h0]; rfl
    have hlen2 : 0 + calls.length ≤ 2147483647 := by omega
    refine ⟨by rw [(logAll_count calls s 0 h0n hlen2).2, zero_add], ?_, ?_⟩
    · intro j cj hj hlate
      have hjlt : j < calls.length := by
        rcases Nat.lt_or_ge j calls.length with h | h
        · exact h
        · rw [List.getElem?_eq_none h] at hj
          exact absurd hj (by simp)
      have hlen3 : calls.length ≤ j + 100 := by
        by_contra hc
        have := hlate (j + 100) (by omega) (by omega)
        omega
      have := logAll_holds calls s 0 j cj h0n hlen2 hj hlen3
      rw [zero_add] at this
      exact ⟨slotOf j, historySlot_natCast j, rfl, this⟩
    · intro i hi
      apply logAll_untouched calls s 0 i h0n hlen2
      intro j hj hslot
      rw [zero_add] at hslot
      exact hi j hj (congrArg Fin.val hslot)
  · intro h0 hlen c0 c100 _ h100
    have h0n : currentCount s = ((0 : Nat) : Int) := by rw [h0]; rfl
    have hold := logAll_holds calls s 0 100 c100 h0n (by omega) h100 (by omega)
    have hslot : slotOf (0 + 100) = 0 := by decide
    rw [hslot] at hold
    refine ⟨hold, ?_⟩
    intro hne hc0
    exact hne (hc0.2.2.1.symm.trans hold.2.2.1)

/-- C15 amended, at a concrete run: 101 deposits, number `k` recorded at time `k`, on the
empty history of account 0; slot 0 ends with the record of time 100. -/
theorem ring_buffer_history_witness :
    currentCount (logAll (sampleState 0 0 0) ((List.range 101).map sampleLog)) = 101 ∧
    (currentHistory (logAll (sampleState 0 0 0) ((List.range 101).map sampleLog))
      0).timestamp = 100 ∧
    ¬ holdsRecord (currentHistory (logAll (sampleState 0 0 0)
      ((List.range 101).map sampleLog)) 0) (sampleLog 0) := by
  have h := ring_buffer_history (sampleState 0 0 0) (sampleLog 0)
    ((List.range 101).map sampleLog)
  have hlen : ((List.range 101).map sampleLog).length = 101 := by simp
  have h0 : ((List.range 101).map sampleLog)[0]? = some (sampleLog 0) := by
    simp
  have h100 : ((List.range 101).map sampleLog)[100]? = some (sampleLog 100) := by
    simp
  have hne : (sampleLog 0).amount ≠ (sampleLog 100).amount := by
    decide!
  have hmax : ((((List.range 101).map sampleLog).length : Nat) : Int) ≤ INT_MAX := by
    rw [hlen]; decide
  obtain ⟨k1, k2⟩ := h.2.2.2.2 rfl hlen (sampleLog 0) (sampleLog 100) h0 h100
  refine ⟨?_, k1.1, k2 hne⟩
  rw [(h.2.2.2.1 rfl hmax).1, hlen]
  rfl

/-! ## Formatting facts -/

theorem digitChar_isDigit (k : Nat) (h : k < 10) : (Nat.digitChar k).isDigit = true := by
  interval_cases k <;> rfl

theorem toDigitsCore_isDigit (fuel : Nat) :
    ∀ (n : Nat) (ds : List Char), (∀ c ∈ ds, c.isDigit = true) →
      ∀ c ∈ Nat.toDigitsCore 10 fuel n ds, c.isDigit = true := by
  induction fuel with
  | zero => intro n ds h c hc; exact h c (by simpa [Nat.toDigitsCore] using hc)
  | succ f ih =>
    intro n ds h c hc
    have hd : (Nat.digitChar (n % 10)).isDigit = true :=
      digitChar_isDigit _ (Nat.mod_lt _ (by decide))
    have hds : ∀ x ∈ Nat.digitChar (n % 10) :: ds, x.isDigit = true := by
      intro x hx
      rcases List.mem_cons.mp hx with rfl | hx
      · exact hd
      · exact h x hx
    unfold Nat.toDigitsCore at hc
    by_cases h0 : n / 10 = 0
    · simp only [h0, if_true] at hc
      exact hds c hc
    · simp only [h0, if_false] at hc
      exact ih _ _ hds c hc

theorem toDigits_isDigit (n : Nat) : ∀ c ∈ Nat.toDigits 10 n, c.isDigit = true :=
  toDigitsCore_isDigit (n + 1) n [] (by simp)

theorem isDigit_keepChar (c : Char) (h : c.isDigit = true) : keepChar c = true := by
  simp [keepChar, Char.isAlphanum, h]

/-- The conversion `%.2f` yields only digits, the period, the minus sign and the letters
of `nan` and `inf`. -/
theorem formatFixed2_keepChar (q : Double) : ∀ c ∈ formatFixed2 q, keepChar c = true := by
  intro c hc
  cases q with
  | nan neg =>
    have h : ∀ x ∈ formatFixed2 (Double.nan neg), keepChar x = true := by
      cases neg <;> decide
    exact h c hc
  | inf neg =>
    have h : ∀ x ∈ formatFixed2 (Double.inf neg), keepChar x = true := by
      cases neg <;> decide
    exact h c hc
  | fin neg m e =>
    unfold formatFixed2 at hc
    simp only [List.mem_append, List.mem_cons, List.mem_singleton] at hc
    rcases hc with ((hs | hd) | hp) | hf
    · split_ifs at hs
      · have : c = '-' := by simpa using hs
        rw [this]; rfl
      · simp at hs
    · exact isDigit_keepChar c (toDigits_isDigit _ c hd)
    · rcases hp with hp | hp
      · rw [hp]; rfl
      · simp at hp
    · rcases hf with hf | hf | hf
      · rw [hf]
        exact isDigit_keepChar _
          (digitChar_isDigit _ (Nat.div_lt_of_lt_mul (Nat.mod_lt _ (by decide))))
      · rw [hf]
        exact isDigit_keepChar _ (digitChar_isDigit _ (Nat.mod_lt _ (by decide)))
      · simp at hf

/-! ## Audit records -/

theorem strncpy_snprintf (text : List Char) :
    strncpy (snprintf 100 text) 99 = snprintf 100 text := by
  simp [strncpy, snprintf, List.take_take]

/-- An accepted withdrawal is the assignments followed by the log entry. -/
theorem withdrawal_accepted_eq (s : State) (amount : Double) (env : Env)
    (h1 : ¬ s.current_session.daily_withdrawal + amount > MAX_DAILY_WITHDRAWAL)
    (h2 : ¬ amount > (s.accounts s.current_account).balance - MIN_BALANCE) :
    performSecureWithdrawal s amount env =
      (SUCCESS, logTransaction (withdrawalApplied s amount) "WITHDRAWAL".toList amount
        (snprintf 100 (withdrawalText amount)) env) := by
  unfold performSecureWithdrawal
  rw [if_neg h1, if_neg h2]
  rfl

/-- An accepted transfer is the assignments followed by the log entry. -/
theorem transfer_accepted_eq (s : State) (t : Fin MAX_ACCOUNTS) (amount : Double) (env : Env)
    (h1 : ¬ s.current_session.daily_transfer + amount > MAX_DAILY_TRANSFER)
    (h2 : ¬ amount > (s.accounts s.current_account).balance - MIN_BALANCE) :
    performSecureTransfer s t amount env =
      (SUCCESS, logTransaction (transferApplied s t amount) "TRANSFER".toList amount
        (snprintf 100 (transferText amount
          ((transferApplied s t amount).accounts t).account_number)) env) := by
  unfold performSecureTransfer
  rw [if_neg h1, if_neg h2]
  rfl

/-- The balance assignments of a withdrawal leave everything but the balance alone. -/
theorem withdrawalApplied_fields (s : State) (amount : Double) (i : Fin MAX_ACCOUNTS) :
    (withdrawalApplied s amount).current_account = s.current_account ∧
    ((withdrawalApplied s amount).accounts i).transaction_history =
      (s.accounts i).transaction_history ∧
    ((withdrawalApplied s amount).accounts i).transaction_count =
      (s.accounts i).transaction_count ∧
    ((withdrawalApplied s amount).accounts i).account_number =
      (s.accounts i).account_number := by
  unfold withdrawalApplied
  by_cases hc : i = s.current_account
  · subst hc; simp
  · simp [Function.update_noteq hc]

/-- The balance assignments of a transfer leave everything but the balances alone. -/
theorem transferApplied_fields (s : State) (t : Fin MAX_ACCOUNTS) (amount : Double)
    (i : Fin MAX_ACCOUNTS) :
    (transferApplied s t amount).current_account = s.current_account ∧
    ((transferApplied s t amount).accounts i).transaction_history =
      (s.accounts i).transaction_history ∧
    ((transferApplied s t amount).accounts i).transaction_count =
      (s.accounts i).transaction_count ∧
    ((transferApplied s t amount).accounts i).account_number =
      (s.accounts i).account_number := by
  unfold transferApplied
  by_cases hi : i = t
  · subst hi
    by_cases hc : i = s.current_account
    · subst hc; simp
    · simp [Function.update_noteq hc]
  · by_cases hc : i = s.current_account
    · subst hc; simp [Function.update_noteq hi]
    · simp [Function.update_noteq hi, Function.update_noteq hc]

/-- The record one `logTransaction` call writes, and what it leaves alone. -/
theorem logTransaction_record (p : State) (ty : List Char) (a : Double) (d : List Char)
    (env : Env) :
    currentCount (logTransaction p ty a d env) = wrapInt (currentCount p + 1) ∧
    (∀ slot, historySlot (currentCount p) = some slot →
      currentHistory (logTransaction p ty a d env) slot =
        { timestamp := env.now
          type := strncpy ty 19
          amount := a
          details := strncpy d 99
          transaction_id := (generateSecureSessionId env.rnd
            (currentHistory p slot).transaction_id).2 } ∧
      (∀ i, i ≠ slot →
        currentHistory (logTransaction p ty a d env) i = currentHistory p i)) ∧
    (∀ b, b ≠ p.current_account → (logTransaction p ty a d env).accounts b = p.accounts b) := by
  refine ⟨?_, ?_, ?_⟩
  · simp [currentCount, logTransaction]
  · intro slot hslot
    unfold currentCount at hslot
    simp only [currentHistory, logTransaction, Function.update_same, hslot]
    refine ⟨trivial, ?_⟩
    intro i hi
    exact Function.update_noteq hi _ _
  · intro b hb
    simp [logTransaction, Function.update_noteq hb]

/-- The record a successful withdrawal leaves behind. -/
theorem withdrawal_record (s : State) (amount : Double) (env : Env)
    (h1 : ¬ s.current_session.daily_withdrawal + amount > MAX_DAILY_WITHDRAWAL)
    (h2 : ¬ amount > (s.accounts s.current_account).balance - MIN_BALANCE) :
    currentCount (performSecureWithdrawal s amount env).2 = wrapInt (currentCount s + 1) ∧
    (∀ slot, historySlot (currentCount s) = some slot →
      currentHistory (performSecureWithdrawal s amount env).2 slot =
        { timestamp := env.now
          type := "WITHDRAWAL".toList
          amount := amount
          details := snprintf 100 (withdrawalText amount)
          transaction_id := (generateSecureSessionId env.rnd
            (currentHistory s slot).transaction_id).2 } ∧
      (∀ i, i ≠ slot →
        currentHistory (performSecureWithdrawal s amount env).2 i = currentHistory s i)) ∧
    (∀ b, b ≠ s.current_account →
      ((performSecureWithdrawal s amount env).2.accounts b).transaction_history =
        (s.accounts b).transaction_history ∧
      ((performSecureWithdrawal s amount env).2.accounts b).transaction_count =
        (s.accounts b).transaction_count) := by
  rw [withdrawal_accepted_eq s amount env h1 h2]
  obtain ⟨r1, r2, r4⟩ := logTransaction_record (withdrawalApplied s amount)
    "WITHDRAWAL".toList amount (snprintf 100 (withdrawalText amount)) env
  have hcur : (withdrawalApplied s amount).current_account = s.current_account :=
    (withdrawalApplied_fields s amount s.current_account).1
  have hcount : currentCount (withdrawalApplied s amount) = currentCount s := by
    unfold currentCount
    rw [hcur]
    exact (withdrawalApplied_fields s amount s.current_account).2.2.1
  have hhist : currentHistory (withdrawalApplied s amount) = currentHistory s := by
    unfold currentHistory
    rw [hcur]
    exact (withdrawalApplied_fields s amount s.current_account).2.1
  rw [hcount, hhist, strncpy_snprintf] at r2
  rw [hcount] at r1
  refine ⟨r1, r2, ?_⟩
  intro b hb
  show ((logTransaction _ _ _ _ _).accounts b).transaction_history = _ ∧
    ((logTransaction _ _ _ _ _).accounts b).transaction_count = _
  rw [r4 b (by rw [hcur]; exact hb)]
  exact ⟨(withdrawalApplied_fields s amount b).2.1, (withdrawalApplied_fields s amount b).2.2.1⟩

/-- The record a successful transfer leaves behind. -/
theorem transfer_record (s : State) (t : Fin MAX_ACCOUNTS) (amount : Double) (env : Env)
    (h1 : ¬ s.current_session.daily_transfer + amount > MAX_DAILY_TRANSFER)
    (h2 : ¬ amount > (s.accounts s.current_account).balance - MIN_BALANCE) :
    currentCount (performSecureTransfer s t amount env).2 = wrapInt (currentCount s + 1) ∧
    (∀ slot, historySlot (currentCount s) = some slot →
      currentHistory (performSecureTransfer s t amount env).2 slot =
        { timestamp := env.now
          type := "TRANSFER".toList
          amount := amount
          details := snprintf 100 (transferText amount (s.accounts t).account_number)
          transaction_id := (generateSecureSessionId env.rnd
            (currentHistory s slot).transaction_id).2 } ∧
      (∀ i, i ≠ slot →
        currentHistory (performSecureTransfer s t amount env).2 i = currentHistory s i)) ∧
    (∀ b, b ≠ s.current_account →
      ((performSecureTransfer s t amount env).2.accounts b).transaction_history =
        (s.accounts b).transaction_history ∧
      ((performSecureTransfer s t amount env).2.accounts b).transaction_count =
        (s.accounts b).transaction_count) := by
  rw [transfer_accepted_eq s t amount env h1 h2]
  obtain ⟨r1, r2, r4⟩ := logTransaction_record (transferApplied s t amount)
    "TRANSFER".toList amount (snprintf 100 (transferText amount
      ((transferApplied s t amount).accounts t).account_number)) env
  have hcur : (transferApplied s t amount).current_account = s.current_account :=
    (transferApplied_fields s t amount s.current_account).1
  have hcount : currentCount (transferApplied s t amount) = currentCount s := by
    unfold currentCount
    rw [hcur]
    exact (transferApplied_fields s t amount s.current_account).2.2.1
  have hhist : currentHistory (transferApplied s t amount) = currentHistory s := by
    unfold currentHistory
    rw [hcur]
    exact (transferApplied_fields s t amount s.current_account).2.1
  rw [hcount, hhist, strncpy_snprintf, (transferApplied_fields s t amount t).2.2.2] at r2
  rw [hcount] at r1
  refine ⟨r1, ?_, ?_⟩
  · intro slot hslot
    show currentHistory (logTransaction _ _ _ _ _) _ = _ ∧ _
    rw [(transferApplied_fields s t amount t).2.2.2]
    exact r2 slot hslot
  · intro b hb
    show ((logTransaction _ _ _ _ _).accounts b).transaction_history = _ ∧
      ((logTransaction _ _ _ _ _).accounts b).transaction_count = _
    rw [r4 b (by rw [hcur]; exact hb)]
    exact ⟨(transferApplied_fields s t amount b).2.1, (transferApplied_fields s t amount b).2.2.1⟩

/-- The slot a count that is not negative names. -/
theorem historySlot_of_nonneg (n : Int) (h : 0 ≤ n) :
    ∃ slot, historySlot n = some slot ∧ (slot.val : Int) = n % 100 := by
  obtain ⟨k, hk⟩ := Int.eq_ofNat_of_zero_le h
  refine ⟨slotOf k, by rw [hk]; exact historySlot_natCast k, ?_⟩
  rw [hk]
  show ((k % 100 : Nat) : Int) = (k : Int) % 100
  norm_cast

/-- C17, as stated, fails: in a session whose `last_activity` is 0, a withdrawal of 200
made at time 5 returns `SUCCESS` and `last_activity` is still 0 afterwards. -/
theorem session_touch_counterexample :
    (performSecureWithdrawal (sampleState 1000 0 0) 200 (sampleEnv 5)).1 = SUCCESS ∧
    (sampleEnv 5).now = 5 ∧
    (performSecureWithdrawal (sampleState 1000 0 0) 200
      (sampleEnv 5)).2.current_session.last_activity = 0 ∧
    (performSecureWithdrawal (sampleState 1000 0 0) 200
      (sampleEnv 5)).2.current_session.last_activity ≠ (sampleEnv 5).now := by
  decide!

/-- C17, amended: `performSecureWithdrawal` and `performSecureTransfer` leave the
session's `last_activity` as it was, whatever they return.  The touch is the separate
function `updateSessionActivity`, which the loop of `main` calls after each iteration:
once it has run after the operation, `last_activity` equals `now`, and nothing else
has changed. -/
theorem session_touch_by_caller (s : State) (t : Fin MAX_ACCOUNTS) (amount : Double)
    (env : Env) (now : Int) :
    (performSecureWithdrawal s amount env).2.current_session.last_activity =
      s.current_session.last_activity ∧
    (performSecureTransfer s t amount env).2.current_session.last_activity =
      s.current_session.last_activity ∧
    (updateSessionActivity (performSecureWithdrawal s amount env).2
      now).current_session.last_activity = now ∧
    (updateSessionActivity (performSecureTransfer s t amount env).2
      now).current_session.last_activity = now ∧
    (updateSessionActivity s now).accounts = s.accounts ∧
    (updateSessionActivity s now).current_account = s.current_account ∧
    (updateSessionActivity s now).current_session =
      { s.current_session with last_activity := now } :=
  ⟨(withdrawal_session_fields s amount env).2, (transfer_session_fields s t amount env).2,
    rfl, rfl, rfl, rfl, rfl⟩

/-! ## Stored details -/

/-- The string `sanitizeInput` leaves in a buffer that holds `input`. -/
theorem sanitizeInput_cString (input rest : List Char) (h : ∀ c ∈ input, c ≠ NUL) :
    cString (sanitizeInput (input ++ NUL :: rest)) = input.filter keepChar := by
  obtain ⟨post, hp⟩ := sanitizeLoop_inv input ((input ++ NUL :: rest).length + 1) [] []
    rest h (by simp; omega)
  have hp2 : sanitizeLoop ((input ++ NUL :: rest).length + 1) (input ++ NUL :: rest) 0 0 =
      input.filter keepChar ++ NUL :: post := by
    simpa using hp
  unfold sanitizeInput
  rw [hp2]
  apply cString_append_NUL
  intro c hc
  exact h c (List.mem_of_mem_filter hc)

/-- A text made of permitted characters and dollar signs loses exactly its dollar signs
in `sanitizeInput`. -/
theorem sanitizeInput_drops_dollar (d : List Char)
    (h : ∀ c ∈ d, isPermittedChar c = true ∨ c = '$') :
    cString (sanitizeInput (d ++ [NUL])) = d.filter (fun c => c != '$') := by
  have hnul : ∀ c ∈ d, c ≠ NUL := by
    intro c hc hn
    rcases h c hc with hk | hk
    · rw [hn] at hk; exact absurd hk (by decide)
    · rw [hn] at hk; exact absurd hk (by decide)
  rw [sanitizeInput_cString d [] hnul]
  apply List.filter_congr
  intro c hc
  rcases h c hc with hk | hk
  · have hne : c ≠ '$' := by
      intro he; rw [he] at hk; exact absurd hk (by decide)
    rw [keepChar_eq_isPermittedChar, hk]
    simp [hne]
  · rw [hk]; rfl

theorem withdrawalText_chars (amount : Double) :
    ∀ c ∈ withdrawalText amount, isPermittedChar c = true ∨ c = '$' := by
  intro c hc
  unfold withdrawalText at hc
  have hpre : ∀ x ∈ "Withdrawal of $".toList, isPermittedChar x = true ∨ x = '$' := by
    decide
  rcases List.mem_append.mp hc with h | h
  · exact hpre c h
  · left
    rw [← keepChar_eq_isPermittedChar]
    exact formatFixed2_keepChar amount c h

theorem transferText_chars (amount : Double) (number : List Char)
    (hnum : ∀ c ∈ number, isPermittedChar c = true) :
    ∀ c ∈ transferText amount number, isPermittedChar c = true ∨ c = '$' := by
  intro c hc
  unfold transferText at hc
  have hpre : ∀ x ∈ "Transfer of $".toList, isPermittedChar x = true ∨ x = '$' := by
    decide
  have hmid : ∀ x ∈ " to account ".toList, isPermittedChar x = true := by
    decide
  rcases List.mem_append.mp hc with h | h
  · rcases List.mem_append.mp h with h | h
    · rcases List.mem_append.mp h with h | h
      · exact hpre c h
      · left
        rw [← keepChar_eq_isPermittedChar]
        exact formatFixed2_keepChar amount c h
    · exact Or.inl (hmid c h)
  · exact Or.inl (hnum c h)

/-- C18, as stated, fails: the details a withdrawal of 200 stores are
`Withdrawal of $200.00`; they contain a dollar sign, which is outside the permitted set,
and `sanitizeInput` turns them into `Withdrawal of 200.00`, a different string. -/
theorem stored_details_counterexample :
    (performSecureWithdrawal (sampleState 1000 0 0) 200 (sampleEnv 5)).1 = SUCCESS ∧
    historySlot (currentCount (sampleState 1000 0 0)) = some 0 ∧
    (currentHistory (performSecureWithdrawal (sampleState 1000 0 0) 200 (sampleEnv 5)).2
      0).details = "Withdrawal of $200.00".toList ∧
    isPermittedChar '$' = false ∧
    cString (sanitizeInput ((currentHistory (performSecureWithdrawal (sampleState 1000 0 0)
      200 (sampleEnv 5)).2 0).details ++ [NUL])) = "Withdrawal of 200.00".toList ∧
    cString (sanitizeInput ((currentHistory (performSecureWithdrawal (sampleState 1000 0 0)
      200 (sampleEnv 5)).2 0).details ++ [NUL])) ≠
      (currentHistory (performSecureWithdrawal (sampleState 1000 0 0) 200
        (sampleEnv 5)).2 0).details := by
  decide!

/-- C18, amended: the details a successful `performSecureWithdrawal` or
`performSecureTransfer` stores are the formatted text cut to 99 characters, stored
without passing through `sanitizeInput`.  Every character of them is alphanumeric, a
space, a period, a hyphen or the dollar sign of the format (for a transfer, provided the
target's `account_number` consists of permitted characters), and `sanitizeInput` would
remove exactly the dollar signs.  The record is the one in the slot
`transaction_count % 100` of the current account, which exists whenever that count is
not negative. -/
theorem stored_details_characters (s : State) (t : Fin MAX_ACCOUNTS) (amount : Double)
    (env : Env) :
    (0 ≤ currentCount s → ∃ slot, historySlot (currentCount s) = some slot) ∧
    ((performSecureWithdrawal s amount env).1 = SUCCESS →
      ∀ slot, historySlot (currentCount s) = some slot →
      (currentHistory (performSecureWithdrawal s amount env).2 slot).details =
        (withdrawalText amount).take 99 ∧
      (∀ c ∈ (currentHistory (performSecureWithdrawal s amount env).2 slot).details,
        isPermittedChar c = true ∨ c = '$') ∧
      cString (sanitizeInput ((currentHistory (performSecureWithdrawal s amount env).2
        slot).details ++ [NUL])) =
          (currentHistory (performSecureWithdrawal s amount env).2
            slot).details.filter (fun c => c != '$')) ∧
    ((performSecureTransfer s t amount env).1 = SUCCESS →
      (∀ c ∈ (s.accounts t).account_number, isPermittedChar c = true) →
      ∀ slot, historySlot (currentCount s) = some slot →
      (currentHistory (performSecureTransfer s t amount env).2 slot).details =
        (transferText amount (s.accounts t).account_number).take 99 ∧
      (∀ c ∈ (currentHistory (performSecureTransfer s t amount env).2 slot).details,
        isPermittedChar c = true ∨ c = '$') ∧
      cString (sanitizeInput ((currentHistory (performSecureTransfer s t amount env).2
        slot).details ++ [NUL])) =
          (currentHistory (performSecureTransfer s t amount env).2
            slot).details.filter (fun c => c != '$')) := by
  refine ⟨fun h => ?_, ?_, ?_⟩
  · obtain ⟨slot, hslot, _⟩ := historySlot_of_nonneg _ h
    exact ⟨slot, hslot⟩
  · intro hs slot hslot
    obtain ⟨h1, h2⟩ := withdrawal_success_guards s amount env hs
    obtain ⟨_, r, _⟩ := withdrawal_record s amount env h1 h2
    have hdet : (currentHistory (performSecureWithdrawal s amount env).2 slot).details =
        (withdrawalText amount).take 99 := by
      rw [(r slot hslot).1]; rfl
    have hch : ∀ c ∈ (withdrawalText amount).take 99, isPermittedChar c = true ∨ c = '$' :=
      fun c hc => withdrawalText_chars amount c (List.mem_of_mem_take hc)
    rw [hdet]
    exact ⟨rfl, hch, sanitizeInput_drops_dollar _ hch⟩
  · intro hs hnum slot hslot
    obtain ⟨h1, h2⟩ := transfer_success_guards s t amount env hs
    obtain ⟨_, r, _⟩ := transfer_record s t amount env h1 h2
    have hdet : (currentHistory (performSecureTransfer s t amount env).2 slot).details =
        (transferText amount (s.accounts t).account_number).take 99 := by
      rw [(r slot hslot).1]; rfl
    have hch : ∀ c ∈ (transferText amount (s.accounts t).account_number).take 99,
        isPermittedChar c = true ∨ c = '$' :=
      fun c hc => transferText_chars amount _ hnum c (List.mem_of_mem_take hc)
    rw [hdet]
    exact ⟨rfl, hch, sanitizeInput_drops_dollar _ hch⟩

/-- C18 amended, at a concrete state: 300 from account 0 to account 1 (`ACC-0002`). -/
theorem stored_details_characters_witness :
    (performSecureTransfer (sampleState 1000 0 0) 1 300 (sampleEnv 5)).1 = SUCCESS ∧
    (∀ c ∈ (currentHistory (performSecureTransfer (sampleState 1000 0 0) 1 300
      (sampleEnv 5)).2 0).details, isPermittedChar c = true ∨ c = '$') := by
  have c : (performSecureTransfer (sampleState 1000 0 0) 1 300 (sampleEnv 5)).1 = SUCCESS := by
    decide!
  have hnum : ∀ x ∈ ((sampleState 1000 0 0).accounts 1).account_number,
      isPermittedChar x = true := by
    decide!
  have hslot : historySlot (currentCount (sampleState 1000 0 0)) = some 0 := by decide!
  exact ⟨c, ((stored_details_characters (sampleState 1000 0 0) 1 300 (sampleEnv 5)).2.2
    c hnum 0 hslot).2.1⟩

/-! ## Conservation of money -/

theorem set_at_length_bytes (pre post : List Nat) (c d : Nat) :
    (pre ++ c :: post).set pre.length d = pre ++ d :: post := by
  induction pre with
  | nil => rfl
  | cons x xs ih => simp

/-- Clearing the block `mid` that follows `pre`. -/
theorem clearSensitiveData_block (mid : List Nat) :
    ∀ pre post : List Nat,
      clearSensitiveData (pre ++ mid ++ post) pre.length mid.length =
        pre ++ List.replicate mid.length 0 ++ post := by
  induction mid with
  | nil => intro pre post; simp [clearSensitiveData]
  | cons b mid ih =>
    intro pre post
    have h1 : pre ++ b :: mid ++ post = pre ++ b :: (mid ++ post) := by simp
    have h2 : pre ++ 0 :: (mid ++ post) = (pre ++ [0]) ++ mid ++ post := by simp
    have h3 : pre.length + 1 = (pre ++ [0]).length := by simp
    rw [List.length_cons, clearSensitiveData, h1, set_at_length_bytes, h2, h3, ih]
    simp [List.replicate_succ]

/-- The memory after `clearSensitiveData(mem + p, size)`. -/
theorem clearSensitiveData_eq (mem : List Nat) (p size : Nat) (h : p + size ≤ mem.length) :
    clearSensitiveData mem p size =
      mem.take p ++ List.replicate size 0 ++ mem.drop (p + size) := by
  have hsplit : mem = mem.take p ++ (mem.drop p).take size ++ mem.drop (p + size) := by
    rw [List.append_assoc, ← List.drop_drop, List.take_append_drop, List.take_append_drop]
  have hl1 : (mem.take p).length = p := by
    rw [List.length_take]; omega
  have hl2 : ((mem.drop p).take size).length = size := by
    rw [List.length_take, List.length_drop]; omega
  have := clearSensitiveData_block ((mem.drop p).take size) (mem.take p) (mem.drop (p + size))
  rw [← hsplit, hl1, hl2] at this
  exact this

/-- A field inside a cleared record consists of zero bytes. -/
theorem fieldBytes_cleared (mem : List Nat) (size off width : Nat)
    (hs : size ≤ mem.length) (hf : off + width ≤ size) :
    fieldBytes (clearSensitiveData mem 0 size) off width = List.replicate width 0 := by
  rw [clearSensitiveData_eq mem 0 size (by omega)]
  unfold fieldBytes
  apply List.ext_getElem?
  intro i
  by_cases hi : i < width
  · rw [List.getElem?_take_of_lt hi, List.getElem?_drop]
    have h1 : off + i < (List.take 0 mem ++ List.replicate size 0).length := by simp; omega
    rw [List.getElem?_append_left h1]
    simp [List.getElem?_replicate, hi]
    omega
  · have h1 : (List.replicate width (0 : Nat))[i]? = none := by
      simp [List.getElem?_replicate, hi]
    rw [h1]
    simp
    omega

theorem readLE_zeros (w : Nat) : readLE (List.replicate w 0) = 0 := by
  induction w with
  | zero => rfl
  | succ n ih => simp [List.replicate_succ, readLE, ih]

theorem decodeSigned_zeros (w : Nat) : decodeSigned (List.replicate w 0) = 0 := by
  unfold decodeSigned
  rw [readLE_zeros, if_pos (by positivity)]
  rfl

theorem decodeBool_zeros (w : Nat) : decodeBool (List.replicate w 0) = false := by
  unfold decodeBool
  rw [readLE_zeros]
  rfl

theorem decodeDouble_zeros (w : Nat) : decodeDouble (List.replicate w 0) = 0 := by
  unfold decodeDouble
  rw [readLE_zeros]
  decide!

theorem decodeString_zeros (w : Nat) : decodeString (List.replicate w 0) = [] := by
  cases w with
  | zero => rfl
  | succ n => simp [decodeString, List.replicate_succ]

/-- C19: for every session record (every content of its bytes, under every layout of
its fields), after `clearSensitiveData` is applied to the whole record, as `main` does
on exit, every field is zero: `is_active` is false, `transaction_count`,
`daily_withdrawal` and `daily_transfer` are 0, `last_activity` is 0 and `session_id` is
the empty string; and `isSessionValid` then returns false for every current time.  More
generally `clearSensitiveData(ptr, size)` sets exactly the `size` bytes from `ptr` to
zero and leaves the bytes before and beyond them unchanged. -/
theorem wipe_zeroes_session (l : SessionLayout) (s : State) (mem : List Nat)
    (buf : List Nat) (p size : Nat) :
    (l.fits → l.size ≤ mem.length →
      (wipeSession l s mem).current_session.is_active = false ∧
      (wipeSession l s mem).current_session.transaction_count = 0 ∧
      (wipeSession l s mem).current_session.daily_withdrawal = 0 ∧
      (wipeSession l s mem).current_session.daily_transfer = 0 ∧
      (wipeSession l s mem).current_session.last_activity = 0 ∧
      (wipeSession l s mem).current_session.session_id = [] ∧
      ∀ now, isSessionValid (wipeSession l s mem) now = false) ∧
    (p + size ≤ buf.length →
      clearSensitiveData buf p size =
        buf.take p ++ List.replicate size 0 ++ buf.drop (p + size) ∧
      (clearSensitiveData buf p size).length = buf.length ∧
      (∀ i, p ≤ i → i < p + size → (clearSensitiveData buf p size)[i]? = some 0) ∧
      (∀ i, i < p ∨ p + size ≤ i → (clearSensitiveData buf p size)[i]? = buf[i]?)) := by
  constructor
  · intro hfit hlen
    obtain ⟨f1, f2, f3, f4, f5, f6⟩ := hfit
    have a1 : (wipeSession l s mem).current_session.is_active = false := by
      show decodeBool (fieldBytes (clearSensitiveData mem 0 l.size) l.off_is_active 1) = false
      rw [fieldBytes_cleared mem _ _ _ hlen f2, decodeBool_zeros]
    have a2 : (wipeSession l s mem).current_session.transaction_count = 0 := by
      show decodeSigned (fieldBytes (clearSensitiveData mem 0 l.size)
        l.off_transaction_count l.int_width) = 0
      rw [fieldBytes_cleared mem _ _ _ hlen f5, decodeSigned_zeros]
    have a3 : (wipeSession l s mem).current_session.daily_withdrawal = 0 := by
      show decodeDouble (fieldBytes (clearSensitiveData mem 0 l.size)
        l.off_daily_withdrawal 8) = 0
      rw [fieldBytes_cleared mem _ _ _ hlen f3, decodeDouble_zeros]
    have a4 : (wipeSession l s mem).current_session.daily_transfer = 0 := by
      show decodeDouble (fieldBytes (clearSensitiveData mem 0 l.size)
        l.off_daily_transfer 8) = 0
      rw [fieldBytes_cleared mem _ _ _ hlen f4, decodeDouble_zeros]
    have a5 : (wipeSession l s mem).current_session.last_activity = 0 := by
      show decodeSigned (fieldBytes (clearSensitiveData mem 0 l.size)
        l.off_last_activity l.time_width) = 0
      rw [fieldBytes_cleared mem _ _ _ hlen f1, decodeSigned_zeros]
    have a6 : (wipeSession l s mem).current_session.session_id = [] := by
      show decodeString (fieldBytes (clearSensitiveData mem 0 l.size)
        l.off_session_id 33) = []
      rw [fieldBytes_cleared mem _ _ _ hlen f6, decodeString_zeros]
    refine ⟨a1, a2, a3, a4, a5, a6, ?_⟩
    intro now
    unfold isSessionValid
    rw [a1]
    rfl
  · intro h
    have e := clearSensitiveData_eq buf p size h
    have hlt : (List.take p buf).length = p := by rw [List.length_take]; omega
    refine ⟨e, ?_, ?_, ?_⟩
    · rw [e]
      simp only [List.length_append, List.length_take, List.length_replicate,
        List.length_drop]
      omega
    · intro i h1 h2
      rw [e, List.append_assoc, List.getElem?_append_right (by omega), hlt,
        List.getElem?_append_left (by simp; omega)]
      simp [List.getElem?_replicate]
      omega
    · intro i hi
      rcases hi with hi | hi
      · rw [e, List.append_assoc, List.getElem?_append_left (by omega),
          List.getElem?_take_of_lt hi]
      · rw [e, List.getElem?_append_right (by simp; omega)]
        simp only [List.length_append, List.length_replicate, hlt, List.getElem?_drop]
        congr 1
        omega

/-- C19, at concrete memory: a 72-byte session record full of `0xff` bytes under the
64-bit Linux layout, and a 5-byte buffer cleared from offset 1 over 3 bytes. -/
theorem wipe_zeroes_session_witness :
    (wipeSession lp64Layout (sampleState 0 0 0)
      (List.replicate 72 255)).current_session.is_active = false ∧
    (wipeSession lp64Layout (sampleState 0 0 0)
      (List.replicate 72 255)).current_session.daily_withdrawal = 0 ∧
    (∀ now, isSessionValid (wipeSession lp64Layout (sampleState 0 0 0)
      (List.replicate 72 255)) now = false) ∧
    clearSensitiveData [1, 2, 3, 4, 5] 1 3 = [1, 0, 0, 0, 5] := by
  have hfit : lp64Layout.fits := by
    unfold SessionLayout.fits lp64Layout
    decide
  have hlen : lp64Layout.size ≤ (List.replicate 72 255).length := by decide
  have h := (wipe_zeroes_session lp64Layout (sampleState 0 0 0) (List.replicate 72 255)
    [1, 2, 3, 4, 5] 1 3).1 hfit hlen
  have hb := (wipe_zeroes_session lp64Layout (sampleState 0 0 0) (List.replicate 72 255)
    [1, 2, 3, 4, 5] 1 3).2 (by decide)
  refine ⟨h.1, h.2.2.1, h.2.2.2.2.2.2, ?_⟩
  rw [hb.1]
  rfl

end SecureATM
